import Mathlib

/-!
Verification development for the Durable-Object chat session of this
repository (worker/src/ChatRoom.ts, worker/src/tools.ts, and the earlier
revisions of the same worker kept in the repository).

The TypeScript code is shallowly embedded: JS strings are Lean `String`s
(raw SSE bytes are `List Char`), JS numbers appearing in tool inputs are
modelled as integers (no claim exercises fractional arithmetic; JS float
division and NaN are abstracted, see the comments at `calculate`),
`JSON.parse` is an explicit function parameter `jsonParse` since it is a
host primitive, and the Durable Object's storage/broadcast side effects
are made explicit state (`storage`, `outbox`).
-/

/-- Status of a tool_use content block (`"running" | "complete" | "error"`
in ChatRoom.ts). -/
inductive Status where
  | running
  | complete
  | error
deriving DecidableEq

/-- JSON values, the payloads of tool inputs and parsed SSE lines. -/
inductive Json where
  | jnull
  | jbool (b : Bool)
  | jnum (n : Int)
  | jstr (s : String)
  | jobj (fields : List (String × Json))

mutual

/-- Decidable equality for the nested `Json` inductive. -/
def Json.decEq : (a b : Json) → Decidable (a = b)
  | .jnull, .jnull => .isTrue rfl
  | .jnull, .jbool _ => .isFalse (by intro e; exact Json.noConfusion e)
  | .jnull, .jnum _ => .isFalse (by intro e; exact Json.noConfusion e)
  | .jnull, .jstr _ => .isFalse (by intro e; exact Json.noConfusion e)
  | .jnull, .jobj _ => .isFalse (by intro e; exact Json.noConfusion e)
  | .jbool _, .jnull => .isFalse (by intro e; exact Json.noConfusion e)
  | .jbool x, .jbool y =>
    if h : x = y then .isTrue (by rw [h])
    else .isFalse (by intro e; injection e; contradiction)
  | .jbool _, .jnum _ => .isFalse (by intro e; exact Json.noConfusion e)
  | .jbool _, .jstr _ => .isFalse (by intro e; exact Json.noConfusion e)
  | .jbool _, .jobj _ => .isFalse (by intro e; exact Json.noConfusion e)
  | .jnum _, .jnull => .isFalse (by intro e; exact Json.noConfusion e)
  | .jnum _, .jbool _ => .isFalse (by intro e; exact Json.noConfusion e)
  | .jnum x, .jnum y =>
    if h : x = y then .isTrue (by rw [h])
    else .isFalse (by intro e; injection e; contradiction)
  | .jnum _, .jstr _ => .isFalse (by intro e; exact Json.noConfusion e)
  | .jnum _, .jobj _ => .isFalse (by intro e; exact Json.noConfusion e)
  | .jstr _, .jnull => .isFalse (by intro e; exact Json.noConfusion e)
  | .jstr _, .jbool _ => .isFalse (by intro e; exact Json.noConfusion e)
  | .jstr _, .jnum _ => .isFalse (by intro e; exact Json.noConfusion e)
  | .jstr x, .jstr y =>
    if h : x = y then .isTrue (by rw [h])
    else .isFalse (by intro e; injection e; contradiction)
  | .jstr _, .jobj _ => .isFalse (by intro e; exact Json.noConfusion e)
  | .jobj _, .jnull => .isFalse (by intro e; exact Json.noConfusion e)
  | .jobj _, .jbool _ => .isFalse (by intro e; exact Json.noConfusion e)
  | .jobj _, .jnum _ => .isFalse (by intro e; exact Json.noConfusion e)
  | .jobj _, .jstr _ => .isFalse (by intro e; exact Json.noConfusion e)
  | .jobj xs, .jobj ys =>
    match Json.decEqFields xs ys with
    | .isTrue h => .isTrue (by rw [h])
    | .isFalse h => .isFalse (by intro e; injection e; contradiction)

/-- Decidable equality for `Json` object field lists. -/
def Json.decEqFields : (a b : List (String × Json)) → Decidable (a = b)
  | [], [] => .isTrue rfl
  | [], _ :: _ => .isFalse (by intro e; exact List.noConfusion e)
  | _ :: _, [] => .isFalse (by intro e; exact List.noConfusion e)
  | (k, v) :: xs, (l, w) :: ys =>
    if hk : k = l then
      match Json.decEq v w with
      | .isTrue hv =>
        match Json.decEqFields xs ys with
        | .isTrue ht => .isTrue (by rw [hk, hv, ht])
        | .isFalse ht => .isFalse (by intro e; injection e; contradiction)
      | .isFalse hv =>
        .isFalse (by
          intro e; injection e with h1 h2
          exact hv (congrArg Prod.snd h1))
    else
      .isFalse (by
        intro e; injection e with h1 h2
        exact hk (congrArg Prod.fst h1))

end

instance : DecidableEq Json := Json.decEq

/-- Field lookup on a JSON object (`obj.field` in JS); `none` is JS
`undefined`. -/
def Json.getField : Json → String → Option Json
  | .jobj fields, k => fields.lookup k
  | _, _ => none

/-- `x` viewed as a string, when it is one. -/
def Json.asStr : Json → Option String
  | .jstr s => some s
  | _ => none

/-- `x` viewed as a number, when it is one. -/
def Json.asNum : Json → Option Int
  | .jnum n => some n
  | _ => none

/-- `obj.field` as a string (JS `undefined` when absent or not a string;
non-string truthy coercions are not needed by any claim). -/
def Json.strField (j : Json) (k : String) : Option String :=
  (j.getField k).bind Json.asStr

/-- `obj.field` as a number. -/
def Json.numField (j : Json) (k : String) : Option Int :=
  (j.getField k).bind Json.asNum

/-- Content blocks, ChatRoom.ts lines 9-12.  `status` and `result` are
optional exactly as in the TS type. -/
inductive ContentBlock where
  | text (text : String)
  | toolUse (id : String) (name : String) (input : Json)
      (status : Option Status) (result : Option String)
  | toolResult (tool_use_id : String) (content : String)
deriving DecidableEq

/-- A stored chat message, ChatRoom.ts lines 14-20 (the optional
`iteration` annotation is never written by the code and is omitted). -/
structure Message where
  id : String
  role : String
  content : List ContentBlock
  timestamp : Nat
deriving DecidableEq

/-- A tool result fed back to the model, ChatRoom.ts lines 22-26 (the
constant `type: "tool_result"` tag is implicit). -/
structure ToolResult where
  tool_use_id : String
  content : String
deriving DecidableEq

/-- One tool-call request collected from the stream
(`{ id, name, input }` in processStreamingResponse). -/
structure ToolUseReq where
  id : String
  name : String
  input : Json
deriving DecidableEq

/-- The argument record of `broadcastUpdate`, ChatRoom.ts lines 152-159.
Optional fields are `none` when the call site does not pass them. -/
structure Payload where
  type : String
  messageId : String
  content : Option (List ContentBlock)
  iteration : Option Nat
  totalIterations : Option Nat
  error : Option String
deriving DecidableEq

/-! ## Tool registry (worker/src/tools.ts)

A tool's `definition` (name/description/input_schema) is only forwarded
to the model and never consulted by the session logic, so the embedding
keeps just the execution function.  `execute` returning
`Except String String` models a JS function that returns a result string
or throws an error whose `.message` is the carried string. -/

/-- A registered tool: its execution function (tools.ts `Tool.execute`;
the progress callback is never passed by ChatRoom.ts line 310 and is
omitted). -/
structure Tool where
  execute : Json → Except String String

/-- JS arithmetic on possibly-undefined operands: any missing operand
propagates to NaN, modelled as `none`. -/
def optAdd : Option Int → Option Int → Option Int
  | some a, some b => some (a + b)
  | _, _ => none

def optSub : Option Int → Option Int → Option Int
  | some a, some b => some (a - b)
  | _, _ => none

def optMul : Option Int → Option Int → Option Int
  | some a, some b => some (a * b)
  | _, _ => none

/-- `b !== 0 ? a / b : NaN` (tools.ts line 68).  JS float division is
abstracted to integer division; no claim evaluates a division. -/
def optDiv : Option Int → Option Int → Option Int
  | some a, some b => if b ≠ 0 then some (a / b) else none
  | _, _ => none

/-- Rendering of a JS number into a template string; `none` (NaN or a
missing operand) renders as it would after NaN arithmetic. -/
def showNum : Option Int → String
  | some n => toString n
  | none => "NaN"

/-- tools.ts lines 48-75: the calculator tool's `execute`.  The 5s delay
is timing only.  An unknown (or missing, hence `undefined`) operation
throws `Unknown operation: ...`. -/
def calculatorExecute (input : Json) : Except String String :=
  let a := input.numField "a"
  let b := input.numField "b"
  let operation := (input.strField "operation").getD "undefined"
  let mkMsg := fun (r : Option Int) =>
    "The result of " ++ showNum a ++ " " ++ operation ++ " " ++ showNum b
      ++ " is " ++ showNum r
  match operation with
  | "add" => .ok (mkMsg (optAdd a b))
  | "subtract" => .ok (mkMsg (optSub a b))
  | "multiply" => .ok (mkMsg (optMul a b))
  | "divide" => .ok (mkMsg (optDiv a b))
  | op => .error ("Unknown operation: " ++ op)

/-- tools.ts lines 102-151: the validate_sum tool's `execute`; the
sub-task progress reporting is dead in the current worker (no progress
callback is ever passed) and only the final validation string remains. -/
def validateSumExecute (input : Json) : Except String String :=
  let a := input.numField "a"
  let b := input.numField "b"
  let expected := input.numField "expected_result"
  let actual := optAdd a b
  if actual = expected ∧ actual ≠ none then
    .ok ("✓ Validation passed: " ++ showNum a ++ " + " ++ showNum b ++ " = "
      ++ showNum expected ++ " is correct")
  else
    .ok ("✗ Validation failed: " ++ showNum a ++ " + " ++ showNum b ++ " = "
      ++ showNum actual ++ ", but expected " ++ showNum expected)

/-- tools.ts lines 155-162: the tool registry. -/
def createToolRegistry : List (String × Tool) :=
  [("calculator", ⟨calculatorExecute⟩), ("validate_sum", ⟨validateSumExecute⟩)]

/-- tools.ts lines 170-187: dispatch to a registry; an unknown name
throws `Unknown tool: ...` and a throwing tool is re-thrown wrapped in
`Error executing tool: ...`. -/
def executeTool (tools : List (String × Tool)) (toolName : String)
    (toolInput : Json) : Except String String :=
  match tools.lookup toolName with
  | none => .error ("Unknown tool: " ++ toolName)
  | some t =>
    match t.execute toolInput with
    | .ok r => .ok r
    | .error m => .error ("Error executing tool: " ++ m)

example :
    executeTool createToolRegistry "calculator"
      (.jobj [("operation", .jstr "add"), ("a", .jnum 7), ("b", .jnum 5)])
      = .ok "The result of 7 add 5 is 12" := rfl

example :
    executeTool createToolRegistry "nope" .jnull
      = .error "Unknown tool: nope" := rfl

example :
    executeTool createToolRegistry "calculator"
      (.jobj [("operation", .jstr "pow"), ("a", .jnum 7), ("b", .jnum 5)])
      = .error "Error executing tool: Unknown operation: pow" := rfl

/-! ## Stream Decoder: chunk buffering (ChatRoom.ts lines 198-213)

Raw SSE bytes are modelled as already text-decoded characters
(`TextDecoder` with `stream:true` re-assembles split code points; that
byte-level step is below the granularity of every claim).  A read chunk
is appended to the carried buffer, the buffer is split on `"\n"`, the
last (possibly incomplete) piece becomes the new buffer and the complete
lines are emitted in order. -/

/-- `String.prototype.split("\n")` on characters: `auxSplit pre s` is the
split of `pre ++ s` when `pre` itself contains no newline (the way the
source calls it).  Always returns a nonempty list whose last element is
the trailing piece after the final newline. -/
def auxSplit (pre : List Char) : List Char → List (List Char)
  | [] => [pre]
  | c :: cs => if c = '\n' then pre :: auxSplit [] cs else auxSplit (pre ++ [c]) cs

/-- Decoder buffering state: the complete lines emitted so far, and the
trailing incomplete line carried across reads (`buffer` in the source). -/
structure ChunkState where
  emitted : List (List Char)
  buffer : List Char
deriving DecidableEq

/-- One `reader.read()` iteration, ChatRoom.ts lines 202-204:
`buffer += chunk; lines = buffer.split("\n"); buffer = lines.pop()`. -/
def feedChunk (st : ChunkState) (chunk : List Char) : ChunkState :=
  let parts := auxSplit [] (st.buffer ++ chunk)
  ⟨st.emitted ++ parts.dropLast, parts.getLastD []⟩

/-- The sequence of complete lines the decoder processes for a given
chunk sequence (the trailing buffer is never processed, exactly as the
source drops it when `done` arrives). -/
def decodeLines (chunks : List (List Char)) : List (List Char) :=
  (chunks.foldl feedChunk ⟨[], []⟩).emitted

/-- Character-level reference machine for the same buffering: consuming
one character either closes the current line or extends the buffer. -/
def charStep (st : ChunkState) (c : Char) : ChunkState :=
  if c = '\n' then ⟨st.emitted ++ [st.buffer], []⟩ else ⟨st.emitted, st.buffer ++ [c]⟩

/-! ## Stream Decoder: line classification (ChatRoom.ts lines 206-268)

A complete line is handled only when it starts with `"data: "`; the rest
is trimmed, `[DONE]` and empty payloads are skipped, the JSON text is
parsed (`jsonParse` parameter; a parse failure drops the line), and the
parsed value is classified by the source's if/else chain.  The chain's
guards that depend on decoder *state* (`currentToolUse`) live in the
stream machine, not here. -/

/-- The logical SSE events of the source's if/else chain, in its order:
text delta (truthy `delta.text`), tool-call start, tool-input fragment,
block stop, `message_stop`, `message_delta` with truthy `stop_reason`,
or an event none of the branches handles. -/
inductive SSEData where
  | textDelta (text : String)
  | toolUseStart (id : String) (name : String)
  | inputJsonDelta (partialJson : String)
  | blockStop
  | stopMessage
  | stopDelta (reason : String)
  | other
deriving DecidableEq

/-- A JSON value at an object field, viewed as a JS-truthy string
(`undefined`, the empty string, and non-strings — which no real event
carries in these positions — are falsy). -/
def truthyStrField (j : Json) (k : String) : Option String :=
  match j.strField k with
  | some s => if s = "" then none else some s
  | none => none

/-- ChatRoom.ts lines 216-268: classify one parsed SSE JSON value by the
source's if/else chain (state-independent part). -/
def classifyParsed (parsed : Json) : SSEData :=
  let ty := (parsed.strField "type").getD ""
  let delta := (parsed.getField "delta").getD .jnull
  if ty = "content_block_delta" ∧ (truthyStrField delta "text").isSome then
    .textDelta ((truthyStrField delta "text").getD "")
  else if ty = "content_block_start" ∧
      ((parsed.getField "content_block").getD .jnull).strField "type"
        = some "tool_use" then
    let cb := (parsed.getField "content_block").getD .jnull
    .toolUseStart ((cb.strField "id").getD "undefined")
      ((cb.strField "name").getD "undefined")
  else if ty = "content_block_delta" ∧
      delta.strField "type" = some "input_json_delta" then
    .inputJsonDelta ((delta.strField "partial_json").getD "undefined")
  else if ty = "content_block_stop" then
    .blockStop
  else if ty = "message_stop" then
    .stopMessage
  else if ty = "message_delta" ∧ (truthyStrField delta "stop_reason").isSome then
    .stopDelta ((truthyStrField delta "stop_reason").getD "")
  else
    .other

/-- `line.startsWith("data: ")` together with `line.slice(6)`. -/
def dropDataTag : List Char → Option (List Char)
  | 'd' :: 'a' :: 't' :: 'a' :: ':' :: ' ' :: rest => some rest
  | _ => none

/-- The whitespace classes `.trim()` strips from an SSE payload. -/
def isSpaceChar (c : Char) : Bool :=
  c == ' ' || c == '\t' || c == '\r' || c == '\n'

/-- `.trim()` on characters. -/
def trimChars (l : List Char) : List Char :=
  ((l.dropWhile isSpaceChar).reverse.dropWhile isSpaceChar).reverse

/-- ChatRoom.ts lines 206-213 + 269-273: handle one complete line.
Non-`data: ` lines, `[DONE]`, empty payloads and malformed JSON yield no
event (malformed JSON is logged and dropped, the stream continues). -/
def sseLine (jsonParse : String → Option Json) (line : List Char) :
    Option SSEData :=
  match dropDataTag line with
  | none => none
  | some rest =>
    let data := String.mk (trimChars rest)
    if data = "[DONE]" ∨ data = "" then none
    else
      match jsonParse data with
      | some parsed => some (classifyParsed parsed)
      | none => none

/-- The ordered logical event sequence a chunked SSE byte stream decodes
to. -/
def decodeEvents (jsonParse : String → Option Json)
    (chunks : List (List Char)) : List SSEData :=
  (decodeLines chunks).filterMap (sseLine jsonParse)

/-! ## Content Log helpers -/

/-- `messages.findIndex(m => m.id === messageId)` as an optional index
(`-1` becomes `none`). -/
def firstIdxWithId : List Message → String → Option Nat
  | [], _ => none
  | m :: ms, mid =>
    if m.id = mid then some 0 else (firstIdxWithId ms mid).map (· + 1)

/-- Update the message at a (pre-computed) index; out-of-range is a
no-op, like a `-1` index guard in the source. -/
def modifyMessageAt : List Message → Nat → (Message → Message) → List Message
  | [], _, _ => []
  | m :: ms, 0, f => f m :: ms
  | m :: ms, n + 1, f => m :: modifyMessageAt ms n f

/-- `this.messages[messageIndex].content` as a total function. -/
def contentAt (msgs : List Message) (idx : Nat) : List ContentBlock :=
  ((msgs[idx]?).map Message.content).getD []

/-- ChatRoom.ts lines 220-228: write the accumulated round text into the
content list — overwrite the last block when it is a text block, else
push a new text block. -/
def putText (c : List ContentBlock) (tc : String) : List ContentBlock :=
  match c.getLast? with
  | some (.text _) => c.dropLast ++ [.text tc]
  | _ => c ++ [.text tc]

/-! ## Stream machine (processStreamingResponse, ChatRoom.ts 175-278) -/

/-- The local mutable variables of `processStreamingResponse`. -/
structure StreamAcc where
  textContent : String
  toolUses : List ToolUseReq
  currentToolUse : Option (String × String)
  toolInput : String
  stopReason : Option String
deriving DecidableEq

def emptyAcc : StreamAcc := ⟨"", [], none, "", none⟩

/-- The state-dependent part of the event chain, acting on the local
accumulator only (ChatRoom.ts 216-268): text accumulation, tool-call
start, input-fragment concatenation in arrival order, the single JSON
parse of the concatenated input at block stop (parse failure discards
the call), and stop-reason bookkeeping. -/
def accStep (jsonParse : String → Option Json) (a : StreamAcc) :
    SSEData → StreamAcc
  | .textDelta d => { a with textContent := a.textContent ++ d }
  | .toolUseStart id name =>
    { a with
      currentToolUse := some (id, name)
      toolInput := "" }
  | .inputJsonDelta s => { a with toolInput := a.toolInput ++ s }
  | .blockStop =>
    match a.currentToolUse with
    | some (id, name) =>
      match jsonParse a.toolInput with
      | some input =>
        { a with
          toolUses := a.toolUses ++ [⟨id, name, input⟩]
          currentToolUse := none
          toolInput := "" }
      | none =>
        { a with
          currentToolUse := none
          toolInput := "" }
    | none => a
  | .stopMessage => { a with stopReason := some "end_turn" }
  | .stopDelta r => { a with stopReason := some r }
  | .other => a

/-- Full streaming state: the shared message log, the broadcasts emitted
so far, and the local accumulator. -/
structure ProcState where
  messages : List Message
  outbox : List Payload
  acc : StreamAcc
deriving DecidableEq

/-- One decoded event of the stream, full effect: a text delta
additionally rewrites the focused message's content (extend-or-open via
`putText`) and broadcasts an `update` snapshot (ChatRoom.ts 216-237);
all other events only touch the accumulator. -/
def procStep (jsonParse : String → Option Json) (messageId : String)
    (iteration : Nat) (msgIdx : Nat) (st : ProcState) (ev : SSEData) :
    ProcState :=
  let acc1 := accStep jsonParse st.acc ev
  match ev with
  | .textDelta _ =>
    let msgs := modifyMessageAt st.messages msgIdx
      (fun m => { m with content := putText m.content acc1.textContent })
    ⟨msgs,
     st.outbox ++ [⟨"update", messageId, some (contentAt msgs msgIdx),
       some iteration, none, none⟩],
     acc1⟩
  | _ => ⟨st.messages, st.outbox, acc1⟩

/-- ChatRoom.ts 175-278: decode the chunked response and fold the stream
machine over its events.  When the focused message id is missing the
source returns the empty result without touching anything. -/
def processStreamingResponse (jsonParse : String → Option Json)
    (messages : List Message) (outbox : List Payload) (messageId : String)
    (iteration : Nat) (chunks : List (List Char)) : ProcState :=
  match firstIdxWithId messages messageId with
  | none => ⟨messages, outbox, emptyAcc⟩
  | some idx =>
    (decodeEvents jsonParse chunks).foldl
      (procStep jsonParse messageId iteration idx) ⟨messages, outbox, emptyAcc⟩

/-! ## Tool execution (executeTools, ChatRoom.ts 281-362) -/

/-- State threaded through the per-tool loop. -/
structure ExecState where
  messages : List Message
  outbox : List Payload
  results : List ToolResult
deriving DecidableEq

/-- `content.findIndex(b => b.type === "tool_use" && b.id === id)`
followed by the status/result assignment: rewrite the first tool_use
block with the given id; on the error path the source leaves `result`
untouched (`res = none`). -/
def resolveFirstToolUse (id : String) (st : Status) (res : Option String) :
    List ContentBlock → List ContentBlock
  | [] => []
  | b :: bs =>
    match b with
    | .toolUse bid name input _ r0 =>
      if bid = id then
        .toolUse bid name input (some st)
          (match res with | some r => some r | none => r0) :: bs
      else b :: resolveFirstToolUse id st res bs
    | _ => b :: resolveFirstToolUse id st res bs

/-- ChatRoom.ts 290-358, one iteration: push a `running` tool_use block,
broadcast, execute, rewrite the first block with that id to
`complete`+result or `error`, broadcast, and append the `ToolResult`
(`"Error: " ++ message` on failure). -/
def stepTool (tools : List (String × Tool)) (messageId : String)
    (iteration : Nat) (msgIdx : Nat) (st : ExecState) (tu : ToolUseReq) :
    ExecState :=
  let msgs1 := modifyMessageAt st.messages msgIdx
    (fun m => { m with content :=
      m.content ++ [.toolUse tu.id tu.name tu.input (some .running) none] })
  let ob1 := st.outbox ++ [⟨"update", messageId,
    some (contentAt msgs1 msgIdx), some iteration, none, none⟩]
  match executeTool tools tu.name tu.input with
  | .ok r =>
    let msgs2 := modifyMessageAt msgs1 msgIdx
      (fun m => { m with content :=
        resolveFirstToolUse tu.id .complete (some r) m.content })
    ⟨msgs2,
     ob1 ++ [⟨"update", messageId, some (contentAt msgs2 msgIdx),
       some iteration, none, none⟩],
     st.results ++ [⟨tu.id, r⟩]⟩
  | .error e =>
    let msgs2 := modifyMessageAt msgs1 msgIdx
      (fun m => { m with content :=
        resolveFirstToolUse tu.id .error none m.content })
    ⟨msgs2,
     ob1 ++ [⟨"update", messageId, some (contentAt msgs2 msgIdx),
       some iteration, none, none⟩],
     st.results ++ [⟨tu.id, "Error: " ++ e⟩]⟩

/-- ChatRoom.ts 281-362: execute every collected tool call in discovery
order (empty results when the focused message id is missing). -/
def executeTools (tools : List (String × Tool)) (messages : List Message)
    (outbox : List Payload) (messageId : String) (iteration : Nat)
    (toolUses : List ToolUseReq) : ExecState :=
  match firstIdxWithId messages messageId with
  | none => ⟨messages, outbox, []⟩
  | some idx =>
    toolUses.foldl (stepTool tools messageId iteration idx)
      ⟨messages, outbox, []⟩

/-! ## Agent loop (getAIResponse, ChatRoom.ts 364-503) -/

/-- One conversation-history turn sent upstream: either content blocks
or a synthetic tool-result turn. -/
inductive HistContent where
  | blocks (bs : List ContentBlock)
  | results (rs : List ToolResult)
deriving DecidableEq

structure HistTurn where
  role : String
  content : HistContent
deriving DecidableEq

/-- ChatRoom.ts 164-172. -/
def getConversationHistory (messages : List Message)
    (excludeIds : List String) : List HistTurn :=
  ((messages.filter (fun m => !(excludeIds.contains m.id))).filter
      (fun m => 0 < m.content.length)).map
    (fun m => ⟨m.role, .blocks m.content⟩)

/-- `CONFIG.MAX_ITERATIONS` (ChatRoom.ts line 30). -/
def MAX_ITERATIONS : Nat := 10

/-- What the upstream model call of one round produced: a non-2xx/network
failure, or an SSE chunk stream. -/
inductive RoundOutcome where
  | httpError (status : Nat)
  | streamOk (chunks : List (List Char))

/-- Observable session state threaded through the loop.  `storage` is
the durable record last written by `saveMessages`, `outbox` the ordered
broadcasts, `trace` an instrumentation ghost recording which iterations
started a round body. -/
structure LoopState where
  messages : List Message
  storage : List Message
  outbox : List Payload
  history : List HistTurn
  trace : List Nat
deriving DecidableEq

/-- ChatRoom.ts 409-425, the zero-tool-call exit: broadcast a final
`complete` carrying `totalIterations := iteration` (guarded by the
message lookup) and return. -/
def finishNoTools (messageId : String) (iteration : Nat) (st : LoopState) :
    LoopState :=
  match firstIdxWithId st.messages messageId with
  | some idx =>
    { st with outbox := st.outbox ++ [⟨"complete", messageId,
        some (contentAt st.messages idx), none, some iteration, none⟩] }
  | none => st

/-- ChatRoom.ts 471-481, after the `for` loop exhausts its 10 rounds:
save, then broadcast a `complete` that carries only messageId and
content — no `iteration` and no `totalIterations`. -/
def finishExhausted (messageId : String) (st : LoopState) : LoopState :=
  let st1 : LoopState := { st with storage := st.messages }
  match firstIdxWithId st1.messages messageId with
  | some idx =>
    { st1 with outbox := st1.outbox ++ [⟨"complete", messageId,
        some (contentAt st1.messages idx), none, none, none⟩] }
  | none => st1

/-- ChatRoom.ts 427-468, the with-tool-calls remainder of a round body:
record the assistant turn in the conversation history, execute the
collected tools, save, broadcast the per-round `complete` (carrying
`iteration`, not `totalIterations`), and queue the tool results as the
next synthetic user turn. -/
def roundWithTools (tools : List (String × Tool)) (messageId : String)
    (iteration : Nat) (st1 : LoopState) (acc : StreamAcc) : LoopState :=
  let assistantContent :=
    (if acc.textContent ≠ "" then [ContentBlock.text acc.textContent] else [])
    ++ acc.toolUses.map
        (fun tu => ContentBlock.toolUse tu.id tu.name tu.input none none)
  let st2 : LoopState :=
    { st1 with history := st1.history ++ [⟨"assistant", .blocks assistantContent⟩] }
  let ex := executeTools tools st2.messages st2.outbox messageId
    iteration acc.toolUses
  let st3 : LoopState :=
    { st2 with
      messages := ex.messages
      outbox := ex.outbox
      storage := ex.messages }
  let st4 : LoopState :=
    match firstIdxWithId st3.messages messageId with
    | some idx =>
      { st3 with outbox := st3.outbox ++ [⟨"complete", messageId,
          some (contentAt st3.messages idx), some iteration, none, none⟩] }
    | none => st3
  { st4 with history := st4.history ++ [⟨"user", .results ex.results⟩] }

/-- ChatRoom.ts 371-469: the `for` loop, structured on remaining fuel
(`fuel = MAX_ITERATIONS - iteration + 1`); a thrown API error aborts via
`Except.error` carrying the message and the state at the throw. -/
def runRounds (tools : List (String × Tool)) (jsonParse : String → Option Json)
    (script : Nat → RoundOutcome) (messageId : String) :
    Nat → Nat → LoopState → Except (String × LoopState) LoopState
  | 0, _, st => .ok (finishExhausted messageId st)
  | fuel + 1, iteration, st =>
    let st0 : LoopState := { st with trace := st.trace ++ [iteration] }
    match script iteration with
    | .httpError status =>
      .error ("Anthropic API error: " ++ toString status, st0)
    | .streamOk chunks =>
      let ps := processStreamingResponse jsonParse st0.messages st0.outbox
        messageId iteration chunks
      let st1 : LoopState :=
        { st0 with
          messages := ps.messages
          outbox := ps.outbox
          storage := ps.messages }
      if ps.acc.toolUses.isEmpty then
        .ok (finishNoTools messageId iteration st1)
      else
        runRounds tools jsonParse script messageId fuel (iteration + 1)
          (roundWithTools tools messageId iteration st1 ps.acc)

/-- ChatRoom.ts 489-492: the fixed apology substituted on an upstream
failure. -/
def apologyText : String := "Sorry, I encountered an error processing your request."

/-- ChatRoom.ts 364-503: the whole agent loop including its
`try`/`catch` — on a thrown API error the focused message's content is
replaced wholesale by the apology, saved, and broadcast as an `error`
event carrying that content. -/
def getAIResponse (tools : List (String × Tool))
    (jsonParse : String → Option Json) (script : Nat → RoundOutcome)
    (messageId : String) (messages : List Message) : LoopState :=
  let init : LoopState :=
    ⟨messages, messages, [], getConversationHistory messages [messageId], []⟩
  match runRounds tools jsonParse script messageId MAX_ITERATIONS 1 init with
  | .ok st => st
  | .error (msg, st) =>
    match firstIdxWithId st.messages messageId with
    | none => st
    | some idx =>
      let msgs := modifyMessageAt st.messages idx
        (fun m => { m with content := [ContentBlock.text apologyText] })
      { st with
        messages := msgs
        storage := msgs
        outbox := st.outbox ++ [⟨"error", messageId,
          some (contentAt msgs idx), none, none, some msg⟩] }

/-! ## Session actor input handling (webSocketMessage, ChatRoom.ts 82-134) -/

/-- A server→client frame sent while handling a user frame. -/
inductive OutFrame where
  | message (m : Message)
  | update (p : Payload)
deriving DecidableEq

structure HandleResult where
  messages : List Message
  storage : List Message
  frames : List OutFrame
deriving DecidableEq

/-- ChatRoom.ts 86-116, the `type:"message"` branch: wrap the frame's
string payload in exactly one text block, append + save + broadcast,
append + save + broadcast the empty assistant placeholder, then run the
agent loop.  Fresh ids and timestamps are parameters
(`crypto.randomUUID()` / `Date.now()`). -/
def handleUserMessage (tools : List (String × Tool))
    (jsonParse : String → Option Json) (script : Nat → RoundOutcome)
    (messages : List Message) (contentStr : String)
    (userId assistantId : String) (ts1 ts2 : Nat) : HandleResult :=
  let userMessage : Message := ⟨userId, "user", [ContentBlock.text contentStr], ts1⟩
  let msgs1 := messages ++ [userMessage]
  let assistantMessage : Message := ⟨assistantId, "assistant", [], ts2⟩
  let msgs2 := msgs1 ++ [assistantMessage]
  let r := getAIResponse tools jsonParse script assistantId msgs2
  ⟨r.messages, r.storage,
   [.message userMessage, .message assistantMessage] ++ r.outbox.map .update⟩

/-- Tool-call requests collected by a round, as a function of the round's
outcome alone (`accStep` reads nothing from the shared log). -/
def roundToolUses (jsonParse : String → Option Json) :
    RoundOutcome → List ToolUseReq
  | .httpError _ => []
  | .streamOk chunks =>
    ((decodeEvents jsonParse chunks).foldl (accStep jsonParse) emptyAcc).toolUses

/-- The round's model reply streamed fine and requested ≥ 1 tool call. -/
def isStreamWithTools (jsonParse : String → Option Json) :
    RoundOutcome → Bool
  | .httpError _ => false
  | oc@(.streamOk _) => !(roundToolUses jsonParse oc).isEmpty

/-- The round's model reply streamed fine and requested no tool call. -/
def isStreamNoTools (jsonParse : String → Option Json) :
    RoundOutcome → Bool
  | .httpError _ => false
  | oc@(.streamOk _) => (roundToolUses jsonParse oc).isEmpty

/-! ## Earlier worker revision: auto-injected validation

`src/unnamed/part_003` (an earlier `index.ts` of this worker) injects
validation calls after streaming via `checkAutoInjectValidation`; the
same pipeline appears with the policy written inline in
`src/unnamed/part_002` lines 437-488 (every `calculator` call whose
`operation` is `"add"` triggers one `validate_sum` call carrying the
same operands and the computed sum).  Both revisions collect the
injected calls in a separate list while scanning the round's requests in
order and then `push(...)` them at the end of the round's list
(part_002 line 488, part_003 line 411), before any execution. -/

namespace V2

/-- part_002 lines 199-207: the inline calculator. -/
def calculate (operation : String) (a b : Option Int) :
    Except String (Option Int) :=
  match operation with
  | "add" => .ok (optAdd a b)
  | "subtract" => .ok (optSub a b)
  | "multiply" => .ok (optMul a b)
  | "divide" => .ok (optDiv a b)
  | _ => .error ("Unknown operation: " ++ operation)

/-- part_002 line 442: the injection trigger
(`toolUse.name === "calculator" && toolUse.input.operation === "add"`). -/
def isAddCalculator (tu : ToolUseReq) : Bool :=
  tu.name == "calculator" && tu.input.strField "operation" == some "add"

/-- part_002 lines 443-452: the injected `validate_sum` request — the
triggering call's operands copied verbatim plus the pre-computed
`expected_result` (a fresh id from the supplied generator stands in for
`crypto.randomUUID()`). -/
def mkValidation (newId : String) (tu : ToolUseReq) : ToolUseReq :=
  let a := tu.input.numField "a"
  let b := tu.input.numField "b"
  ⟨newId, "validate_sum",
    .jobj [("a", (tu.input.getField "a").getD .jnull),
           ("b", (tu.input.getField "b").getD .jnull),
           ("expected_result",
             match optAdd a b with | some n => .jnum n | none => .jnull)]⟩

/-- part_002 lines 437-488 / part_003 lines 391-411: scan the collected
requests in order, build one validation call per trigger, then append
them all at the end of the round's request list. -/
def autoInjectValidation (freshId : Nat → String) (tus : List ToolUseReq) :
    List ToolUseReq :=
  let scan := tus.foldl
    (fun (acc : List ToolUseReq × Nat) tu =>
      if isAddCalculator tu then
        (acc.1 ++ [mkValidation (freshId acc.2) tu], acc.2 + 1)
      else acc)
    ([], 0)
  tus ++ scan.1

/-- part_003 lines 491-622 collapsed to its execution protocol: every
requested+injected call runs sequentially in list order, each yielding a
`ToolResult` (`"Error: " ++ message` when execution throws,
part_003 line 619). -/
def executeRound (tools : List (String × Tool)) (freshId : Nat → String)
    (tus : List ToolUseReq) : List ToolResult :=
  (autoInjectValidation freshId tus).map (fun tu =>
    match executeTool tools tu.name tu.input with
    | .ok r => (⟨tu.id, r⟩ : ToolResult)
    | .error e => (⟨tu.id, "Error: " ++ e⟩ : ToolResult))

/-- Reference reformulation (not the source's fold): the injected calls
are exactly one validation per trigger, numbered left to right. -/
def validationList (freshId : Nat → String) (tus : List ToolUseReq) :
    List ToolUseReq :=
  (tus.filter isAddCalculator).enum.map (fun p => mkValidation (freshId p.1) p.2)

end V2

/-! ## Reference (spec-side) definitions compared against the code -/

/-- Spec §4.2 `appendText(delta)`, extend-or-open stated on the delta:
append the delta to the last block when it is a text block, else open a
new text block holding just the delta. -/
def appendTextSpec (c : List ContentBlock) (d : String) : List ContentBlock :=
  match c.getLast? with
  | some (.text t) => c.dropLast ++ [.text (t ++ d)]
  | _ => c ++ [.text d]

/-- Monotone step on an optional tool_use status: `running` may advance
to anything, and any other status may only stay put. -/
def statusLE : Option Status → Option Status → Bool
  | some .running, _ => true
  | a, b => a == b

/-- Block compatibility between two snapshots of the same position:
identity fields agree, status moves monotonically, a result may only be
attached, never altered. -/
def blockLE : ContentBlock → ContentBlock → Bool
  | .text s, .text t => s == t
  | .toolUse id n i st r, .toolUse id2 n2 i2 st2 r2 =>
    id == id2 && n == n2 && i == i2 && statusLE st st2 && (r == none || r == r2)
  | .toolResult i c, .toolResult i2 c2 => i == i2 && c == c2
  | _, _ => false

/-- Snapshot order: blocks are only appended, and surviving positions
move by `blockLE`. -/
def contentLE (c c2 : List ContentBlock) : Bool :=
  decide (c.length ≤ c2.length) && (c.zip c2).all (fun p => blockLE p.1 p.2)

/-- A broadcast history is monotone when every consecutive pair of
content snapshots satisfies `contentLE`. -/
def monoTrace : List (List ContentBlock) → Bool
  | [] => true
  | [_] => true
  | c1 :: c2 :: rest => contentLE c1 c2 && monoTrace (c2 :: rest)

/-- The full-content snapshots carried by a broadcast list. -/
def snapshotsOf (ob : List Payload) : List (List ContentBlock) :=
  ob.filterMap Payload.content

/-- Ids of the tool_use blocks of a content list. -/
def toolBlockIds : List ContentBlock → List String
  | [] => []
  | .toolUse id _ _ _ _ :: bs => id :: toolBlockIds bs
  | _ :: bs => toolBlockIds bs

/-! ## Concrete instances used by witnesses and counterexamples -/

/-- A concrete `JSON.parse` table covering the concrete streams below
(anything else is a parse failure). -/
def sampleParse : String → Option Json := fun s =>
  if s = "TSTART" then
    some (.jobj [("type", .jstr "content_block_start"),
      ("content_block", .jobj [("type", .jstr "tool_use"),
        ("id", .jstr "tu1"), ("name", .jstr "calculator")])])
  else if s = "TDELTA" then
    some (.jobj [("type", .jstr "content_block_delta"),
      ("delta", .jobj [("type", .jstr "input_json_delta"),
        ("partial_json", .jstr "ARGS")])])
  else if s = "TSTOP" then
    some (.jobj [("type", .jstr "content_block_stop")])
  else if s = "ARGS" then
    some (.jobj [("operation", .jstr "add"), ("a", .jnum 7), ("b", .jnum 5)])
  else if s = "TXT" then
    some (.jobj [("type", .jstr "content_block_delta"),
      ("delta", .jobj [("text", .jstr "Hello")])])
  else if s = "MSTOP" then
    some (.jobj [("type", .jstr "message_stop")])
  else none

/-- An SSE stream requesting one calculator call, cut mid-line to
exercise the buffer. -/
def toolChunks : List (List Char) :=
  ["data: TSTART\ndata: TD".toList, "ELTA\ndata: TSTOP\n".toList]

/-- An SSE stream with one text delta and a stop, cut mid-line. -/
def textChunks : List (List Char) :=
  ["data: TXT\nda".toList, "ta: MSTOP\n".toList]

/-- Every round requests a tool. -/
def scriptAllTools : Nat → RoundOutcome := fun _ => .streamOk toolChunks

/-- Round 1 requests a tool, later rounds reply with plain text. -/
def scriptToolThenText : Nat → RoundOutcome := fun n =>
  if n = 1 then .streamOk toolChunks else .streamOk textChunks

/-- Round 1 requests a tool, round 2 fails with a non-2xx response. -/
def scriptErrorRound2 : Nat → RoundOutcome := fun n =>
  if n = 1 then .streamOk toolChunks else .httpError 500

def userMsg0 : Message := ⟨"u1", "user", [.text "what is 7 + 5"], 100⟩

def asstMsg0 : Message := ⟨"a1", "assistant", [], 101⟩

def sampleMessages : List Message := [userMsg0, asstMsg0]

example :
    roundToolUses sampleParse (.streamOk toolChunks)
      = [⟨"tu1", "calculator",
          .jobj [("operation", .jstr "add"), ("a", .jnum 7), ("b", .jnum 5)]⟩] := by
  decide

example : roundToolUses sampleParse (.streamOk textChunks) = [] := by decide

example : isStreamWithTools sampleParse (scriptAllTools 3) = true := by decide

example : isStreamNoTools sampleParse (scriptToolThenText 2) = true := by decide

/-- Identity-and-metadata projection of a message (everything the loop
never rewrites). -/
def Message.shape (m : Message) : String × String × Nat :=
  (m.id, m.role, m.timestamp)

/-- `{operation:"add", a:7, b:5}`. -/
def argsAdd75 : Json :=
  .jobj [("operation", .jstr "add"), ("a", .jnum 7), ("b", .jnum 5)]

/-- A calculator addition request. -/
def reqCalcAdd75 : ToolUseReq := ⟨"A", "calculator", argsAdd75⟩

/-- A calculator multiplication request (no injection trigger). -/
def reqCalcMul23 : ToolUseReq :=
  ⟨"B", "calculator",
   .jobj [("operation", .jstr "multiply"), ("a", .jnum 2), ("b", .jnum 3)]⟩

/-- A deterministic stand-in for `crypto.randomUUID()`. -/
def freshV : Nat → String := fun n => "V" ++ toString n

/-- A request that executes fine (id deliberately equal to `reqBadX`). -/
def reqOkX : ToolUseReq :=
  ⟨"X", "calculator",
   .jobj [("operation", .jstr "add"), ("a", .jnum 1), ("b", .jnum 2)]⟩

/-- A request whose dispatch throws (unregistered name; id equal to
`reqOkX`). -/
def reqBadX : ToolUseReq := ⟨"X", "no_such_tool", .jnull⟩

/-- Same duplicated-id pair under another id, for a separate run. -/
def reqOkY : ToolUseReq :=
  ⟨"Y", "calculator",
   .jobj [("operation", .jstr "add"), ("a", .jnum 3), ("b", .jnum 4)]⟩

def reqBadY : ToolUseReq := ⟨"Y", "no_such_tool", .jnull⟩

/-- A bare assistant message used as executeTools / streaming target. -/
def msgA : Message := ⟨"m1", "assistant", [], 0⟩

/-- Fragments that reassemble to a parseable input under `sampleParse`. -/
def goodFrags : List String := ["AR", "GS"]

/-- Fragments whose concatenation `sampleParse` rejects. -/
def badFrags : List String := ["NO", "PE"]

/-- The `ToolResult` list a round's tool executions produce, as a pure
function of the requests (ChatRoom.ts 329-333 / 353-357). -/
def toolResultsOf (tools : List (String × Tool)) (tus : List ToolUseReq) :
    List ToolResult :=
  tus.map (fun tu =>
    match executeTool tools tu.name tu.input with
    | .ok r => (⟨tu.id, r⟩ : ToolResult)
    | .error e => (⟨tu.id, "Error: " ++ e⟩ : ToolResult))

/-- The block pushed when a tool starts (ChatRoom.ts 292-298). -/
def runningBlock (tu : ToolUseReq) : ContentBlock :=
  .toolUse tu.id tu.name tu.input (some .running) none

/-- The block a tool call ends up as: `complete` with its result, or
`error` with no result attached (ChatRoom.ts 317-318 / 342). -/
def resolvedBlock (tools : List (String × Tool)) (tu : ToolUseReq) :
    ContentBlock :=
  match executeTool tools tu.name tu.input with
  | .ok r => .toolUse tu.id tu.name tu.input (some .complete) (some r)
  | .error _ => .toolUse tu.id tu.name tu.input (some .error) none

/-- The blocks a round's tool executions append to the message. -/
def blocksOf (tools : List (String × Tool)) (tus : List ToolUseReq) :
    List ContentBlock :=
  tus.map (resolvedBlock tools)

/-- The content snapshots `executeTools` broadcasts, starting from
content `c0`: for each call, one snapshot right after its `running`
block is pushed and one right after it resolves. -/
def snapshotsList (tools : List (String × Tool)) (c0 : List ContentBlock) :
    List ToolUseReq → List (List ContentBlock)
  | [] => []
  | tu :: tus =>
    (c0 ++ [runningBlock tu]) :: (c0 ++ [resolvedBlock tools tu])
      :: snapshotsList tools (c0 ++ [resolvedBlock tools tu]) tus

/-- The status carried by a tool_use block (and nothing else). -/
def blockStatus : ContentBlock → Option Status
  | .toolUse _ _ _ (some st) _ => some st
  | _ => none

/-! # Lemmas -/

theorem firstIdxWithId_isSome_iff (msgs : List Message) (mid : String) :
    (firstIdxWithId msgs mid).isSome ↔ mid ∈ msgs.map Message.id := by
  induction msgs with
  | nil => simp [firstIdxWithId]
  | cons m ms ih =>
    by_cases h : m.id = mid
    · simp [firstIdxWithId, h]
    · simp only [firstIdxWithId, if_neg h, List.map_cons, List.mem_cons]
      have hmap : (Option.map (fun x => x + 1) (firstIdxWithId ms mid)).isSome
          = (firstIdxWithId ms mid).isSome := by
        cases firstIdxWithId ms mid <;> rfl
      rw [hmap]
      simp only [ih]
      exact (or_iff_right (fun e => h e.symm)).symm

theorem firstIdxWithId_spec (msgs : List Message) (mid : String) (idx : Nat)
    (h : firstIdxWithId msgs mid = some idx) :
    ∃ m, msgs[idx]? = some m ∧ m.id = mid := by
  induction msgs generalizing idx with
  | nil => simp [firstIdxWithId] at h
  | cons m ms ih =>
    by_cases hm : m.id = mid
    · simp only [firstIdxWithId, if_pos hm, Option.some.injEq] at h
      subst h
      exact ⟨m, by simp, hm⟩
    · simp only [firstIdxWithId, if_neg hm, Option.map_eq_some'] at h
      obtain ⟨j, hj, hidx⟩ := h
      subst hidx
      obtain ⟨m', hm', hid⟩ := ih j hj
      exact ⟨m', by simpa using hm', hid⟩

theorem firstIdxWithId_congr (msgs msgs' : List Message) (mid : String)
    (h : msgs'.map Message.id = msgs.map Message.id) :
    firstIdxWithId msgs' mid = firstIdxWithId msgs mid := by
  induction msgs generalizing msgs' with
  | nil =>
    cases msgs' with
    | nil => rfl
    | cons a l => simp at h
  | cons m ms ih =>
    cases msgs' with
    | nil => simp at h
    | cons m' ms' =>
      simp only [List.map_cons, List.cons.injEq] at h
      simp only [firstIdxWithId, h.1, ih ms' h.2]

theorem map_id_of_map_shape (msgs msgs' : List Message)
    (h : msgs'.map Message.shape = msgs.map Message.shape) :
    msgs'.map Message.id = msgs.map Message.id := by
  have h2 := congrArg (List.map Prod.fst) h
  simpa [List.map_map, Function.comp, Message.shape] using h2

theorem modifyMessageAt_map_shape (msgs : List Message) (idx : Nat)
    (f : Message → Message) (hf : ∀ m, (f m).shape = m.shape) :
    (modifyMessageAt msgs idx f).map Message.shape = msgs.map Message.shape := by
  induction msgs generalizing idx with
  | nil => rfl
  | cons m ms ih =>
    cases idx with
    | zero => simp [modifyMessageAt, hf]
    | succ n => simp [modifyMessageAt, ih]

theorem modifyMessageAt_get_ne (msgs : List Message) (idx j : Nat)
    (f : Message → Message) (h : j ≠ idx) :
    (modifyMessageAt msgs idx f)[j]? = msgs[j]? := by
  induction msgs generalizing idx j with
  | nil => rfl
  | cons m ms ih =>
    cases idx with
    | zero =>
      cases j with
      | zero => exact absurd rfl h
      | succ k => simp [modifyMessageAt]
    | succ n =>
      cases j with
      | zero => simp [modifyMessageAt]
      | succ k =>
        simp only [modifyMessageAt, List.getElem?_cons_succ]
        exact ih n k (fun e => h (by rw [e]))

theorem modifyMessageAt_get_self (msgs : List Message) (idx : Nat)
    (f : Message → Message) (m : Message) (h : msgs[idx]? = some m) :
    (modifyMessageAt msgs idx f)[idx]? = some (f m) := by
  induction msgs generalizing idx with
  | nil => simp at h
  | cons m0 ms ih =>
    cases idx with
    | zero =>
      simp only [List.getElem?_cons_zero, Option.some.injEq] at h
      subst h
      simp [modifyMessageAt]
    | succ n =>
      simp only [List.getElem?_cons_succ] at h
      simp only [modifyMessageAt, List.getElem?_cons_succ]
      exact ih n h

theorem contentAt_modify_self (msgs : List Message) (idx : Nat)
    (f : Message → Message) (m : Message) (h : msgs[idx]? = some m) :
    contentAt (modifyMessageAt msgs idx f) idx = (f m).content := by
  unfold contentAt
  rw [modifyMessageAt_get_self msgs idx f m h]
  rfl

theorem shape_at_of_map_shape (msgs msgs' : List Message) (idx : Nat)
    (h : msgs'.map Message.shape = msgs.map Message.shape) (m : Message)
    (hm : msgs[idx]? = some m) :
    ∃ m', msgs'[idx]? = some m' ∧ m'.shape = m.shape := by
  have h1 : (msgs'.map Message.shape)[idx]? = (msgs.map Message.shape)[idx]? := by
    rw [h]
  rw [List.getElem?_map, List.getElem?_map, hm] at h1
  cases hm' : msgs'[idx]? with
  | none => rw [hm'] at h1; simp at h1
  | some m' =>
    rw [hm'] at h1
    simp only [Option.map_some'] at h1
    exact ⟨m', rfl, by injection h1⟩

theorem procStep_acc (p : String → Option Json) (mid : String) (it idx : Nat)
    (st : ProcState) (ev : SSEData) :
    (procStep p mid it idx st ev).acc = accStep p st.acc ev := by
  cases ev <;> rfl

theorem procStep_map_shape (p : String → Option Json) (mid : String)
    (it idx : Nat) (st : ProcState) (ev : SSEData) :
    ((procStep p mid it idx st ev).messages).map Message.shape
      = st.messages.map Message.shape := by
  cases ev with
  | textDelta d => exact modifyMessageAt_map_shape _ _ _ (fun m => rfl)
  | _ => rfl

theorem procStep_outbox_append (p : String → Option Json) (mid : String)
    (it idx : Nat) (st : ProcState) (ev : SSEData) :
    ∃ t, (procStep p mid it idx st ev).outbox = st.outbox ++ t := by
  cases ev with
  | textDelta d => exact ⟨_, rfl⟩
  | _ => exact ⟨[], (List.append_nil _).symm⟩

theorem procStep_get_ne (p : String → Option Json) (mid : String)
    (it idx j : Nat) (st : ProcState) (ev : SSEData) (h : j ≠ idx) :
    ((procStep p mid it idx st ev).messages)[j]? = st.messages[j]? := by
  cases ev with
  | textDelta d => exact modifyMessageAt_get_ne _ _ _ _ h
  | _ => rfl

theorem foldProc_acc (p : String → Option Json) (mid : String) (it idx : Nat)
    (evs : List SSEData) (st : ProcState) :
    (evs.foldl (procStep p mid it idx) st).acc
      = evs.foldl (accStep p) st.acc := by
  induction evs generalizing st with
  | nil => rfl
  | cons ev evs ih =>
    rw [List.foldl_cons, List.foldl_cons, ih, procStep_acc]

theorem foldProc_map_shape (p : String → Option Json) (mid : String)
    (it idx : Nat) (evs : List SSEData) (st : ProcState) :
    ((evs.foldl (procStep p mid it idx) st).messages).map Message.shape
      = st.messages.map Message.shape := by
  induction evs generalizing st with
  | nil => rfl
  | cons ev evs ih =>
    rw [List.foldl_cons, ih, procStep_map_shape]

theorem foldProc_outbox_append (p : String → Option Json) (mid : String)
    (it idx : Nat) (evs : List SSEData) (st : ProcState) :
    ∃ t, (evs.foldl (procStep p mid it idx) st).outbox = st.outbox ++ t := by
  induction evs generalizing st with
  | nil => exact ⟨[], (List.append_nil _).symm⟩
  | cons ev evs ih =>
    rw [List.foldl_cons]
    obtain ⟨t1, h1⟩ := ih (procStep p mid it idx st ev)
    obtain ⟨t0, h0⟩ := procStep_outbox_append p mid it idx st ev
    exact ⟨t0 ++ t1, by rw [h1, h0, List.append_assoc]⟩

theorem foldProc_get_ne (p : String → Option Json) (mid : String)
    (it idx j : Nat) (evs : List SSEData) (st : ProcState) (h : j ≠ idx) :
    ((evs.foldl (procStep p mid it idx) st).messages)[j]? = st.messages[j]? := by
  induction evs generalizing st with
  | nil => rfl
  | cons ev evs ih =>
    rw [List.foldl_cons, ih, procStep_get_ne _ _ _ _ _ _ _ h]

theorem processStreamingResponse_acc (p : String → Option Json)
    (msgs : List Message) (ob : List Payload) (mid : String) (it : Nat)
    (ch : List (List Char)) (idx : Nat)
    (hidx : firstIdxWithId msgs mid = some idx) :
    (processStreamingResponse p msgs ob mid it ch).acc.toolUses
      = roundToolUses p (.streamOk ch) := by
  unfold processStreamingResponse
  rw [hidx]
  simp only
  rw [foldProc_acc]
  rfl

theorem processStreamingResponse_map_shape (p : String → Option Json)
    (msgs : List Message) (ob : List Payload) (mid : String) (it : Nat)
    (ch : List (List Char)) :
    ((processStreamingResponse p msgs ob mid it ch).messages).map Message.shape
      = msgs.map Message.shape := by
  unfold processStreamingResponse
  cases hidx : firstIdxWithId msgs mid with
  | none => rfl
  | some idx => exact foldProc_map_shape p mid it idx _ _

theorem processStreamingResponse_outbox_append (p : String → Option Json)
    (msgs : List Message) (ob : List Payload) (mid : String) (it : Nat)
    (ch : List (List Char)) :
    ∃ t, (processStreamingResponse p msgs ob mid it ch).outbox = ob ++ t := by
  unfold processStreamingResponse
  cases hidx : firstIdxWithId msgs mid with
  | none => exact ⟨[], (List.append_nil _).symm⟩
  | some idx => exact foldProc_outbox_append p mid it idx _ _

theorem processStreamingResponse_get_ne (p : String → Option Json)
    (msgs : List Message) (ob : List Payload) (mid : String) (it : Nat)
    (ch : List (List Char)) (j : Nat)
    (h : firstIdxWithId msgs mid ≠ some j) :
    ((processStreamingResponse p msgs ob mid it ch).messages)[j]? = msgs[j]? := by
  unfold processStreamingResponse
  cases hidx : firstIdxWithId msgs mid with
  | none => rfl
  | some idx =>
    exact foldProc_get_ne p mid it idx j _ _ (fun e => h (by rw [hidx, e]))

theorem stepTool_map_shape (tools : List (String × Tool)) (mid : String)
    (it idx : Nat) (st : ExecState) (tu : ToolUseReq) :
    ((stepTool tools mid it idx st tu).messages).map Message.shape
      = st.messages.map Message.shape := by
  unfold stepTool
  cases hex : executeTool tools tu.name tu.input with
  | ok r =>
    dsimp only
    refine (modifyMessageAt_map_shape _ _ _ ?_).trans
      (modifyMessageAt_map_shape _ _ _ ?_) <;> intro m <;> rfl
  | error e =>
    dsimp only
    refine (modifyMessageAt_map_shape _ _ _ ?_).trans
      (modifyMessageAt_map_shape _ _ _ ?_) <;> intro m <;> rfl

theorem stepTool_get_ne (tools : List (String × Tool)) (mid : String)
    (it idx j : Nat) (st : ExecState) (tu : ToolUseReq) (h : j ≠ idx) :
    ((stepTool tools mid it idx st tu).messages)[j]? = st.messages[j]? := by
  unfold stepTool
  cases hex : executeTool tools tu.name tu.input with
  | ok r =>
    dsimp only
    exact (modifyMessageAt_get_ne _ _ _ _ h).trans (modifyMessageAt_get_ne _ _ _ _ h)
  | error e =>
    dsimp only
    exact (modifyMessageAt_get_ne _ _ _ _ h).trans (modifyMessageAt_get_ne _ _ _ _ h)

theorem stepTool_outbox_append (tools : List (String × Tool)) (mid : String)
    (it idx : Nat) (st : ExecState) (tu : ToolUseReq) :
    ∃ t, (stepTool tools mid it idx st tu).outbox = st.outbox ++ t := by
  unfold stepTool
  cases hex : executeTool tools tu.name tu.input with
  | ok r =>
    dsimp only
    exact ⟨_, List.append_assoc _ _ _⟩
  | error e =>
    dsimp only
    exact ⟨_, List.append_assoc _ _ _⟩

theorem stepTool_results (tools : List (String × Tool)) (mid : String)
    (it idx : Nat) (st : ExecState) (tu : ToolUseReq) :
    (stepTool tools mid it idx st tu).results
      = st.results ++ toolResultsOf tools [tu] := by
  unfold stepTool toolResultsOf
  cases hex : executeTool tools tu.name tu.input with
  | ok r =>
    dsimp only
    simp only [List.map_cons, List.map_nil, hex]
  | error e =>
    dsimp only
    simp only [List.map_cons, List.map_nil, hex]

theorem foldStep_results (tools : List (String × Tool)) (mid : String)
    (it idx : Nat) (tus : List ToolUseReq) (st : ExecState) :
    (tus.foldl (stepTool tools mid it idx) st).results
      = st.results ++ toolResultsOf tools tus := by
  induction tus generalizing st with
  | nil => simp [toolResultsOf]
  | cons tu tus ih =>
    rw [List.foldl_cons, ih, stepTool_results]
    simp only [toolResultsOf, List.map_cons, List.map_nil, List.append_assoc,
      List.singleton_append]

theorem foldStep_map_shape (tools : List (String × Tool)) (mid : String)
    (it idx : Nat) (tus : List ToolUseReq) (st : ExecState) :
    ((tus.foldl (stepTool tools mid it idx) st).messages).map Message.shape
      = st.messages.map Message.shape := by
  induction tus generalizing st with
  | nil => rfl
  | cons tu tus ih => rw [List.foldl_cons, ih, stepTool_map_shape]

theorem foldStep_get_ne (tools : List (String × Tool)) (mid : String)
    (it idx j : Nat) (tus : List ToolUseReq) (st : ExecState) (h : j ≠ idx) :
    ((tus.foldl (stepTool tools mid it idx) st).messages)[j]? = st.messages[j]? := by
  induction tus generalizing st with
  | nil => rfl
  | cons tu tus ih =>
    rw [List.foldl_cons, ih, stepTool_get_ne _ _ _ _ _ _ _ h]

theorem foldStep_outbox_append (tools : List (String × Tool)) (mid : String)
    (it idx : Nat) (tus : List ToolUseReq) (st : ExecState) :
    ∃ t, (tus.foldl (stepTool tools mid it idx) st).outbox = st.outbox ++ t := by
  induction tus generalizing st with
  | nil => exact ⟨[], (List.append_nil _).symm⟩
  | cons tu tus ih =>
    rw [List.foldl_cons]
    obtain ⟨t1, h1⟩ := ih (stepTool tools mid it idx st tu)
    obtain ⟨t0, h0⟩ := stepTool_outbox_append tools mid it idx st tu
    exact ⟨t0 ++ t1, by rw [h1, h0, List.append_assoc]⟩

theorem executeTools_results (tools : List (String × Tool))
    (msgs : List Message) (ob : List Payload) (mid : String) (it : Nat)
    (tus : List ToolUseReq) (idx : Nat)
    (hidx : firstIdxWithId msgs mid = some idx) :
    (executeTools tools msgs ob mid it tus).results = toolResultsOf tools tus := by
  unfold executeTools
  rw [hidx]
  exact foldStep_results tools mid it idx tus ⟨msgs, ob, []⟩

theorem executeTools_map_shape (tools : List (String × Tool))
    (msgs : List Message) (ob : List Payload) (mid : String) (it : Nat)
    (tus : List ToolUseReq) :
    ((executeTools tools msgs ob mid it tus).messages).map Message.shape
      = msgs.map Message.shape := by
  unfold executeTools
  cases hidx : firstIdxWithId msgs mid with
  | none => rfl
  | some idx => exact foldStep_map_shape tools mid it idx tus _

theorem executeTools_get_ne (tools : List (String × Tool))
    (msgs : List Message) (ob : List Payload) (mid : String) (it : Nat)
    (tus : List ToolUseReq) (j : Nat)
    (h : firstIdxWithId msgs mid ≠ some j) :
    ((executeTools tools msgs ob mid it tus).messages)[j]? = msgs[j]? := by
  unfold executeTools
  cases hidx : firstIdxWithId msgs mid with
  | none => rfl
  | some idx =>
    exact foldStep_get_ne tools mid it idx j tus _ (fun e => h (by rw [hidx, e]))

theorem executeTools_outbox_append (tools : List (String × Tool))
    (msgs : List Message) (ob : List Payload) (mid : String) (it : Nat)
    (tus : List ToolUseReq) :
    ∃ t, (executeTools tools msgs ob mid it tus).outbox = ob ++ t := by
  unfold executeTools
  cases hidx : firstIdxWithId msgs mid with
  | none => exact ⟨[], (List.append_nil _).symm⟩
  | some idx => exact foldStep_outbox_append tools mid it idx tus _

theorem roundWithTools_messages_shape (tools : List (String × Tool))
    (mid : String) (it : Nat) (st1 : LoopState) (acc : StreamAcc) :
    ((roundWithTools tools mid it st1 acc).messages).map Message.shape
      = st1.messages.map Message.shape := by
  unfold roundWithTools
  dsimp only
  cases hidx : firstIdxWithId
      (executeTools tools st1.messages st1.outbox mid it acc.toolUses).messages mid with
  | none => exact executeTools_map_shape tools st1.messages st1.outbox mid it acc.toolUses
  | some idx => exact executeTools_map_shape tools st1.messages st1.outbox mid it acc.toolUses

theorem roundWithTools_trace (tools : List (String × Tool)) (mid : String)
    (it : Nat) (st1 : LoopState) (acc : StreamAcc) :
    (roundWithTools tools mid it st1 acc).trace = st1.trace := by
  unfold roundWithTools
  dsimp only
  cases firstIdxWithId
      (executeTools tools st1.messages st1.outbox mid it acc.toolUses).messages mid
    <;> rfl

theorem roundWithTools_storage (tools : List (String × Tool)) (mid : String)
    (it : Nat) (st1 : LoopState) (acc : StreamAcc) :
    (roundWithTools tools mid it st1 acc).storage
      = (roundWithTools tools mid it st1 acc).messages := by
  unfold roundWithTools
  dsimp only
  cases firstIdxWithId
      (executeTools tools st1.messages st1.outbox mid it acc.toolUses).messages mid
    <;> rfl

theorem roundWithTools_outbox_append (tools : List (String × Tool))
    (mid : String) (it : Nat) (st1 : LoopState) (acc : StreamAcc) :
    ∃ t, (roundWithTools tools mid it st1 acc).outbox = st1.outbox ++ t := by
  unfold roundWithTools
  dsimp only
  obtain ⟨t0, h0⟩ :=
    executeTools_outbox_append tools st1.messages st1.outbox mid it acc.toolUses
  cases firstIdxWithId
      (executeTools tools st1.messages st1.outbox mid it acc.toolUses).messages mid with
  | none => exact ⟨t0, h0⟩
  | some idx =>
    exact ⟨t0 ++ [_], by rw [← List.append_assoc, ← h0]⟩

theorem roundWithTools_get_ne (tools : List (String × Tool)) (mid : String)
    (it : Nat) (st1 : LoopState) (acc : StreamAcc) (j : Nat)
    (h : firstIdxWithId st1.messages mid ≠ some j) :
    ((roundWithTools tools mid it st1 acc).messages)[j]? = st1.messages[j]? := by
  unfold roundWithTools
  dsimp only
  cases firstIdxWithId
      (executeTools tools st1.messages st1.outbox mid it acc.toolUses).messages mid
    <;> exact executeTools_get_ne tools st1.messages st1.outbox mid it acc.toolUses j h

theorem runRounds_http (tools : List (String × Tool))
    (p : String → Option Json) (script : Nat → RoundOutcome) (mid : String)
    (fuel iteration : Nat) (st : LoopState) (status : Nat)
    (hscript : script iteration = .httpError status) :
    runRounds tools p script mid (fuel + 1) iteration st
      = .error ("Anthropic API error: " ++ toString status,
          { st with trace := st.trace ++ [iteration] }) := by
  simp only [runRounds]
  rw [hscript]

theorem runRounds_exhaust (tools : List (String × Tool))
    (p : String → Option Json) (script : Nat → RoundOutcome) (mid : String)
    (iteration : Nat) (st : LoopState) (idx : Nat)
    (hidx : firstIdxWithId st.messages mid = some idx) :
    ∃ r, runRounds tools p script mid 0 iteration st = .ok r
      ∧ r.trace = st.trace
      ∧ r.messages = st.messages
      ∧ r.storage = st.messages
      ∧ (∃ c, r.outbox.getLast?
          = some ⟨"complete", mid, some c, none, none, none⟩) := by
  refine ⟨finishExhausted mid st, rfl, ?_⟩
  unfold finishExhausted
  dsimp only
  rw [hidx]
  exact ⟨rfl, rfl, rfl, contentAt st.messages idx, List.getLast?_concat _⟩

theorem runRounds_noTools_eq (tools : List (String × Tool))
    (p : String → Option Json) (script : Nat → RoundOutcome) (mid : String)
    (fuel iteration : Nat) (st : LoopState) (ch : List (List Char)) (idx : Nat)
    (hscript : script iteration = .streamOk ch)
    (hidx : firstIdxWithId st.messages mid = some idx)
    (hzero : roundToolUses p (.streamOk ch) = []) :
    runRounds tools p script mid (fuel + 1) iteration st
      = .ok (finishNoTools mid iteration
          ⟨(processStreamingResponse p st.messages st.outbox mid iteration ch).messages,
           (processStreamingResponse p st.messages st.outbox mid iteration ch).messages,
           (processStreamingResponse p st.messages st.outbox mid iteration ch).outbox,
           st.history, st.trace ++ [iteration]⟩) := by
  simp only [runRounds]
  rw [hscript]
  dsimp only
  rw [processStreamingResponse_acc p st.messages st.outbox mid iteration ch idx hidx,
    hzero]
  rfl

theorem runRounds_advance_eq (tools : List (String × Tool))
    (p : String → Option Json) (script : Nat → RoundOutcome) (mid : String)
    (fuel iteration : Nat) (st : LoopState) (ch : List (List Char)) (idx : Nat)
    (hscript : script iteration = .streamOk ch)
    (hidx : firstIdxWithId st.messages mid = some idx)
    (htools : roundToolUses p (.streamOk ch) ≠ []) :
    runRounds tools p script mid (fuel + 1) iteration st
      = runRounds tools p script mid fuel (iteration + 1)
          (roundWithTools tools mid iteration
            ⟨(processStreamingResponse p st.messages st.outbox mid iteration ch).messages,
             (processStreamingResponse p st.messages st.outbox mid iteration ch).messages,
             (processStreamingResponse p st.messages st.outbox mid iteration ch).outbox,
             st.history, st.trace ++ [iteration]⟩
            (processStreamingResponse p st.messages st.outbox mid iteration ch).acc) := by
  simp only [runRounds]
  rw [hscript]
  dsimp only
  rw [processStreamingResponse_acc p st.messages st.outbox mid iteration ch idx hidx]
  cases hne : roundToolUses p (.streamOk ch) with
  | nil => exact absurd hne htools
  | cons tu tus => rfl

theorem runRounds_advance (tools : List (String × Tool))
    (p : String → Option Json) (script : Nat → RoundOutcome) (mid : String)
    (fuel iteration : Nat) (st : LoopState) (ch : List (List Char)) (idx : Nat)
    (hscript : script iteration = .streamOk ch)
    (hidx : firstIdxWithId st.messages mid = some idx)
    (htools : roundToolUses p (.streamOk ch) ≠ []) :
    ∃ st', runRounds tools p script mid (fuel + 1) iteration st
        = runRounds tools p script mid fuel (iteration + 1) st'
      ∧ st'.trace = st.trace ++ [iteration]
      ∧ st'.messages.map Message.shape = st.messages.map Message.shape
      ∧ (∃ t, st'.outbox = st.outbox ++ t)
      ∧ (∀ j, j ≠ idx → st'.messages[j]? = st.messages[j]?) := by
  have hps := processStreamingResponse_map_shape p st.messages st.outbox mid iteration ch
  have hidx1 : firstIdxWithId
      (processStreamingResponse p st.messages st.outbox mid iteration ch).messages mid
      = some idx := by
    rw [firstIdxWithId_congr _ _ _ (map_id_of_map_shape _ _ hps)]
    exact hidx
  refine ⟨_, runRounds_advance_eq tools p script mid fuel iteration st ch idx
    hscript hidx htools, ?_, ?_, ?_, ?_⟩
  · rw [roundWithTools_trace]
  · rw [roundWithTools_messages_shape]
    exact hps
  · obtain ⟨t1, h1⟩ := roundWithTools_outbox_append tools mid iteration
      ⟨(processStreamingResponse p st.messages st.outbox mid iteration ch).messages,
       (processStreamingResponse p st.messages st.outbox mid iteration ch).messages,
       (processStreamingResponse p st.messages st.outbox mid iteration ch).outbox,
       st.history, st.trace ++ [iteration]⟩
      (processStreamingResponse p st.messages st.outbox mid iteration ch).acc
    obtain ⟨t0, h0⟩ := processStreamingResponse_outbox_append p st.messages st.outbox
      mid iteration ch
    exact ⟨t0 ++ t1, by rw [h1]; dsimp only; rw [h0, List.append_assoc]⟩
  · intro j hj
    rw [roundWithTools_get_ne _ _ _ _ _ _ (by rw [hidx1]; simp [Ne, hj.symm])]
    exact processStreamingResponse_get_ne p st.messages st.outbox mid iteration ch j
      (by rw [hidx]; simp [Ne, hj.symm])

theorem runRounds_run_tools (tools : List (String × Tool))
    (p : String → Option Json) (script : Nat → RoundOutcome) (mid : String)
    (n : Nat) :
    ∀ iteration fuel st idx,
      firstIdxWithId st.messages mid = some idx →
      (∀ j, iteration ≤ j → j < iteration + n →
        isStreamWithTools p (script j) = true) →
      ∃ st', runRounds tools p script mid (fuel + n) iteration st
          = runRounds tools p script mid fuel (iteration + n) st'
        ∧ st'.trace = st.trace ++ List.range' iteration n
        ∧ st'.messages.map Message.shape = st.messages.map Message.shape
        ∧ (∃ t, st'.outbox = st.outbox ++ t)
        ∧ (∀ j, j ≠ idx → st'.messages[j]? = st.messages[j]?) := by
  induction n with
  | zero =>
    intro iteration fuel st idx hidx hT
    exact ⟨st, rfl, by simp [List.range'], rfl, ⟨[], by simp⟩, fun j hj => rfl⟩
  | succ n ih =>
    intro iteration fuel st idx hidx hT
    have hT0 : isStreamWithTools p (script iteration) = true :=
      hT iteration le_rfl (by omega)
    cases hsc : script iteration with
    | httpError c =>
      rw [hsc] at hT0
      simp [isStreamWithTools] at hT0
    | streamOk ch =>
      have htools : roundToolUses p (.streamOk ch) ≠ [] := by
        rw [hsc] at hT0
        simp only [isStreamWithTools, Bool.not_eq_true'] at hT0
        intro he
        rw [he] at hT0
        simp at hT0
      have hfe : fuel + (n + 1) = (fuel + n) + 1 := by omega
      rw [hfe]
      obtain ⟨st1, heq, htr, hsh, hob, hne⟩ :=
        runRounds_advance tools p script mid (fuel + n) iteration st ch idx
          hsc hidx htools
      have hidx1 : firstIdxWithId st1.messages mid = some idx := by
        rw [firstIdxWithId_congr _ _ _ (map_id_of_map_shape _ _ hsh)]
        exact hidx
      obtain ⟨st2, heq2, htr2, hsh2, hob2, hne2⟩ :=
        ih (iteration + 1) fuel st1 idx hidx1
          (fun j h1 h2 => hT j (by omega) (by omega))
      have hit : iteration + 1 + n = iteration + (n + 1) := by omega
      refine ⟨st2, ?_, ?_, ?_, ?_, ?_⟩
      · rw [heq, heq2, hit]
      · rw [htr2, htr, List.append_assoc]
        have hr : List.range' iteration (n + 1) 1
            = iteration :: List.range' (iteration + 1) n 1 :=
          List.range'_succ iteration n 1
        rw [hr]
        rfl
      · rw [hsh2, hsh]
      · obtain ⟨t1, h1⟩ := hob
        obtain ⟨t2, h2⟩ := hob2
        exact ⟨t1 ++ t2, by rw [h2, h1, List.append_assoc]⟩
      · intro j hj
        rw [hne2 j hj, hne j hj]

theorem finishNoTools_trace (mid : String) (it : Nat) (st : LoopState) :
    (finishNoTools mid it st).trace = st.trace := by
  unfold finishNoTools
  cases firstIdxWithId st.messages mid <;> rfl

theorem finishExhausted_trace (mid : String) (st : LoopState) :
    (finishExhausted mid st).trace = st.trace := by
  unfold finishExhausted
  dsimp only
  cases firstIdxWithId st.messages mid <;> rfl

theorem runRounds_trace_mono (tools : List (String × Tool))
    (p : String → Option Json) (script : Nat → RoundOutcome) (mid : String) :
    ∀ fuel iteration st,
      (∀ r, runRounds tools p script mid fuel iteration st = .ok r →
        ∃ t, r.trace = st.trace ++ t)
      ∧ (∀ e r, runRounds tools p script mid fuel iteration st = .error (e, r) →
        ∃ t, r.trace = st.trace ++ t) := by
  intro fuel
  induction fuel with
  | zero =>
    intro iteration st
    constructor
    · intro r hr
      simp only [runRounds, Except.ok.injEq] at hr
      subst hr
      exact ⟨[], by rw [finishExhausted_trace, List.append_nil]⟩
    · intro e r hr
      simp only [runRounds] at hr
      exact Except.noConfusion hr
  | succ fuel ih =>
    intro iteration st
    constructor
    · intro r hr
      simp only [runRounds] at hr
      cases hsc : script iteration with
      | httpError c => rw [hsc] at hr; simp at hr
      | streamOk ch =>
        rw [hsc] at hr
        dsimp only at hr
        by_cases hempty :
            (processStreamingResponse p st.messages st.outbox mid iteration
              ch).acc.toolUses.isEmpty
        · rw [if_pos hempty] at hr
          simp only [Except.ok.injEq] at hr
          subst hr
          exact ⟨[iteration], by rw [finishNoTools_trace]⟩
        · rw [if_neg hempty] at hr
          obtain ⟨t, ht⟩ := (ih (iteration + 1) _).1 r hr
          refine ⟨iteration :: t, ?_⟩
          rw [ht, roundWithTools_trace]
          simp
    · intro e r hr
      simp only [runRounds] at hr
      cases hsc : script iteration with
      | httpError c =>
        rw [hsc] at hr
        simp only [Except.error.injEq, Prod.mk.injEq] at hr
        obtain ⟨h1, h2⟩ := hr
        subst h2
        exact ⟨[iteration], rfl⟩
      | streamOk ch =>
        rw [hsc] at hr
        dsimp only at hr
        by_cases hempty :
            (processStreamingResponse p st.messages st.outbox mid iteration
              ch).acc.toolUses.isEmpty
        · rw [if_pos hempty] at hr
          simp at hr
        · rw [if_neg hempty] at hr
          obtain ⟨t, ht⟩ := (ih (iteration + 1) _).2 e r hr
          refine ⟨iteration :: t, ?_⟩
          rw [ht, roundWithTools_trace]
          simp

theorem runRounds_trace_first (tools : List (String × Tool))
    (p : String → Option Json) (script : Nat → RoundOutcome) (mid : String)
    (fuel iteration : Nat) (st : LoopState) :
    (∀ r, runRounds tools p script mid (fuel + 1) iteration st = .ok r →
      ∃ t, r.trace = st.trace ++ iteration :: t)
    ∧ (∀ e r, runRounds tools p script mid (fuel + 1) iteration st = .error (e, r) →
      ∃ t, r.trace = st.trace ++ iteration :: t) := by
  constructor
  · intro r hr
    simp only [runRounds] at hr
    cases hsc : script iteration with
    | httpError c => rw [hsc] at hr; simp at hr
    | streamOk ch =>
      rw [hsc] at hr
      dsimp only at hr
      by_cases hempty :
          (processStreamingResponse p st.messages st.outbox mid iteration
            ch).acc.toolUses.isEmpty
      · rw [if_pos hempty] at hr
        simp only [Except.ok.injEq] at hr
        subst hr
        exact ⟨[], by rw [finishNoTools_trace]⟩
      · rw [if_neg hempty] at hr
        obtain ⟨t, ht⟩ :=
          (runRounds_trace_mono tools p script mid fuel (iteration + 1) _).1 r hr
        refine ⟨t, ?_⟩
        rw [ht, roundWithTools_trace]
        simp
  · intro e r hr
    simp only [runRounds] at hr
    cases hsc : script iteration with
    | httpError c =>
      rw [hsc] at hr
      simp only [Except.error.injEq, Prod.mk.injEq] at hr
      obtain ⟨h1, h2⟩ := hr
      subst h2
      exact ⟨[], rfl⟩
    | streamOk ch =>
      rw [hsc] at hr
      dsimp only at hr
      by_cases hempty :
          (processStreamingResponse p st.messages st.outbox mid iteration
            ch).acc.toolUses.isEmpty
      · rw [if_pos hempty] at hr
        simp at hr
      · rw [if_neg hempty] at hr
        obtain ⟨t, ht⟩ :=
          (runRounds_trace_mono tools p script mid fuel (iteration + 1) _).2 e r hr
        refine ⟨t, ?_⟩
        rw [ht, roundWithTools_trace]
        simp

theorem getAIResponse_of_ok (tools : List (String × Tool))
    (p : String → Option Json) (script : Nat → RoundOutcome) (mid : String)
    (msgs : List Message) (r : LoopState)
    (h : runRounds tools p script mid MAX_ITERATIONS 1
        ⟨msgs, msgs, [], getConversationHistory msgs [mid], []⟩ = .ok r) :
    getAIResponse tools p script mid msgs = r := by
  unfold getAIResponse
  dsimp only
  rw [h]

theorem getAIResponse_of_error (tools : List (String × Tool))
    (p : String → Option Json) (script : Nat → RoundOutcome) (mid : String)
    (msgs : List Message) (emsg : String) (stE : LoopState) (idx : Nat)
    (h : runRounds tools p script mid MAX_ITERATIONS 1
        ⟨msgs, msgs, [], getConversationHistory msgs [mid], []⟩
        = .error (emsg, stE))
    (hidx : firstIdxWithId stE.messages mid = some idx) :
    getAIResponse tools p script mid msgs =
      { stE with
        messages := modifyMessageAt stE.messages idx
          (fun m => { m with content := [ContentBlock.text apologyText] })
        storage := modifyMessageAt stE.messages idx
          (fun m => { m with content := [ContentBlock.text apologyText] })
        outbox := stE.outbox ++ [⟨"error", mid,
          some (contentAt (modifyMessageAt stE.messages idx
            (fun m => { m with content := [ContentBlock.text apologyText] })) idx),
          none, none, some emsg⟩] } := by
  unfold getAIResponse
  dsimp only
  rw [h]
  dsimp only
  rw [hidx]

theorem finishNoTools_fields (mid : String) (it : Nat) (st : LoopState) :
    (finishNoTools mid it st).messages = st.messages
      ∧ (finishNoTools mid it st).storage = st.storage := by
  unfold finishNoTools
  cases firstIdxWithId st.messages mid <;> exact ⟨rfl, rfl⟩

theorem finishExhausted_fields (mid : String) (st : LoopState) :
    (finishExhausted mid st).messages = st.messages
      ∧ (finishExhausted mid st).storage = st.messages := by
  unfold finishExhausted
  dsimp only
  cases firstIdxWithId st.messages mid <;> exact ⟨rfl, rfl⟩

theorem runRounds_shape (tools : List (String × Tool))
    (p : String → Option Json) (script : Nat → RoundOutcome) (mid : String) :
    ∀ fuel iteration st,
      (∀ r, runRounds tools p script mid fuel iteration st = .ok r →
        r.messages.map Message.shape = st.messages.map Message.shape)
      ∧ (∀ e r, runRounds tools p script mid fuel iteration st = .error (e, r) →
        r.messages.map Message.shape = st.messages.map Message.shape) := by
  intro fuel
  induction fuel with
  | zero =>
    intro iteration st
    constructor
    · intro r hr
      simp only [runRounds, Except.ok.injEq] at hr
      subst hr
      rw [(finishExhausted_fields mid st).1]
    · intro e r hr
      simp only [runRounds] at hr
      exact Except.noConfusion hr
  | succ fuel ih =>
    intro iteration st
    constructor
    · intro r hr
      simp only [runRounds] at hr
      cases hsc : script iteration with
      | httpError c => rw [hsc] at hr; simp at hr
      | streamOk ch =>
        rw [hsc] at hr
        dsimp only at hr
        by_cases hempty :
            (processStreamingResponse p st.messages st.outbox mid iteration
              ch).acc.toolUses.isEmpty
        · rw [if_pos hempty] at hr
          simp only [Except.ok.injEq] at hr
          subst hr
          rw [(finishNoTools_fields mid iteration _).1]
          exact processStreamingResponse_map_shape p st.messages st.outbox mid
            iteration ch
        · rw [if_neg hempty] at hr
          have h1 := (ih (iteration + 1) _).1 r hr
          rw [h1, roundWithTools_messages_shape]
          exact processStreamingResponse_map_shape p st.messages st.outbox mid
            iteration ch
    · intro e r hr
      simp only [runRounds] at hr
      cases hsc : script iteration with
      | httpError c =>
        rw [hsc] at hr
        simp only [Except.error.injEq, Prod.mk.injEq] at hr
        obtain ⟨h1, h2⟩ := hr
        subst h2
        rfl
      | streamOk ch =>
        rw [hsc] at hr
        dsimp only at hr
        by_cases hempty :
            (processStreamingResponse p st.messages st.outbox mid iteration
              ch).acc.toolUses.isEmpty
        · rw [if_pos hempty] at hr
          simp at hr
        · rw [if_neg hempty] at hr
          have h1 := (ih (iteration + 1) _).2 e r hr
          rw [h1, roundWithTools_messages_shape]
          exact processStreamingResponse_map_shape p st.messages st.outbox mid
            iteration ch

theorem runRounds_ok_storage (tools : List (String × Tool))
    (p : String → Option Json) (script : Nat → RoundOutcome) (mid : String) :
    ∀ fuel iteration st r,
      runRounds tools p script mid fuel iteration st = .ok r →
      r.storage = r.messages := by
  intro fuel
  induction fuel with
  | zero =>
    intro iteration st r hr
    simp only [runRounds, Except.ok.injEq] at hr
    subst hr
    rw [(finishExhausted_fields mid st).1, (finishExhausted_fields mid st).2]
  | succ fuel ih =>
    intro iteration st r hr
    simp only [runRounds] at hr
    cases hsc : script iteration with
    | httpError c => rw [hsc] at hr; simp at hr
    | streamOk ch =>
      rw [hsc] at hr
      dsimp only at hr
      by_cases hempty :
          (processStreamingResponse p st.messages st.outbox mid iteration
            ch).acc.toolUses.isEmpty
      · rw [if_pos hempty] at hr
        simp only [Except.ok.injEq] at hr
        subst hr
        rw [(finishNoTools_fields mid iteration _).1,
          (finishNoTools_fields mid iteration _).2]
      · rw [if_neg hempty] at hr
        exact ih (iteration + 1) _ r hr

theorem finishNoTools_getLast (mid : String) (it : Nat) (st : LoopState)
    (idx : Nat) (hidx : firstIdxWithId st.messages mid = some idx) :
    (finishNoTools mid it st).outbox.getLast?
      = some ⟨"complete", mid, some (contentAt st.messages idx),
          none, some it, none⟩ := by
  unfold finishNoTools
  rw [hidx]
  exact List.getLast?_concat _

/-- C1: in every agent-loop invocation, a round whose streamed reply
produced zero tool-call requests completes the loop in that round with a
final `complete` broadcast carrying `totalIterations` — whatever the
declared stop-reason was (the script is arbitrary, so any stop-reason
events are covered); a round that produced at least one tool-call
request is followed by another round when the ceiling
`MAX_ITERATIONS = 10` is not yet reached, and force-completes (a final
`complete` broadcast after exactly the ceiling's rounds) when it is. -/
theorem c1_agent_loop_round_dichotomy (tools : List (String × Tool))
    (p : String → Option Json) (script : Nat → RoundOutcome) (mid : String)
    (msgs : List Message) (k idx : Nat)
    (hidx : firstIdxWithId msgs mid = some idx)
    (hk1 : 1 ≤ k) (hk2 : k ≤ MAX_ITERATIONS)
    (hprev : ∀ j, 1 ≤ j → j < k → isStreamWithTools p (script j) = true) :
    (isStreamNoTools p (script k) = true →
      (getAIResponse tools p script mid msgs).trace = List.range' 1 k
      ∧ ∃ c, (getAIResponse tools p script mid msgs).outbox.getLast?
          = some ⟨"complete", mid, some c, none, some k, none⟩)
    ∧ (isStreamWithTools p (script k) = true →
      (k < MAX_ITERATIONS →
        (k + 1) ∈ (getAIResponse tools p script mid msgs).trace)
      ∧ (k = MAX_ITERATIONS →
        (getAIResponse tools p script mid msgs).trace
            = List.range' 1 MAX_ITERATIONS
        ∧ ∃ c, (getAIResponse tools p script mid msgs).outbox.getLast?
            = some ⟨"complete", mid, some c, none, none, none⟩)) := by
  have hk2' : k ≤ 10 := hk2
  constructor
  · intro hno
    cases hsck : script k with
    | httpError c => rw [hsck] at hno; simp [isStreamNoTools] at hno
    | streamOk ch =>
      have hzero : roundToolUses p (.streamOk ch) = [] := by
        rw [hsck] at hno
        simp only [isStreamNoTools] at hno
        cases hz : roundToolUses p (.streamOk ch) with
        | nil => rfl
        | cons a l => rw [hz] at hno; simp at hno
      obtain ⟨st', heq, htr, hsh, hob, hne⟩ :=
        runRounds_run_tools tools p script mid (k - 1) 1 (11 - k)
          ⟨msgs, msgs, [], getConversationHistory msgs [mid], []⟩ idx hidx
          (fun j h1 h2 => hprev j h1 (by omega))
      have e1 : (11 - k) + (k - 1) = MAX_ITERATIONS := by unfold MAX_ITERATIONS; omega
      have e2 : 1 + (k - 1) = k := by omega
      have e3 : 11 - k = (10 - k) + 1 := by omega
      rw [e1, e2, e3] at heq
      have hidx' : firstIdxWithId st'.messages mid = some idx := by
        rw [firstIdxWithId_congr _ _ _ (map_id_of_map_shape _ _ hsh)]
        exact hidx
      have heqF := runRounds_noTools_eq tools p script mid (10 - k) k st' ch idx
        hsck hidx' hzero
      have hrun := heq.trans heqF
      have hga := getAIResponse_of_ok tools p script mid msgs _ hrun
      rw [hga]
      constructor
      · rw [finishNoTools_trace]
        dsimp only
        rw [htr]
        simp only [List.nil_append]
        have hrc : List.range' 1 ((k - 1) + 1) 1
            = List.range' 1 (k - 1) 1 ++ [1 + 1 * (k - 1)] :=
          List.range'_concat 1 (k - 1)
        have e4 : (k - 1) + 1 = k := by omega
        have e5 : 1 + 1 * (k - 1) = k := by omega
        rw [e4, e5] at hrc
        rw [← hrc]
      · have hps := processStreamingResponse_map_shape p st'.messages st'.outbox
          mid k ch
        have hidxF : firstIdxWithId
            (processStreamingResponse p st'.messages st'.outbox mid k ch).messages
            mid = some idx := by
          rw [firstIdxWithId_congr _ _ _ (map_id_of_map_shape _ _ hps)]
          exact hidx'
        exact ⟨_, finishNoTools_getLast mid k _ idx hidxF⟩
  · intro htools
    constructor
    · intro hklt
      have hklt' : k < 10 := hklt
      obtain ⟨st', heq, htr, hsh, hob, hne⟩ :=
        runRounds_run_tools tools p script mid k 1 (10 - k)
          ⟨msgs, msgs, [], getConversationHistory msgs [mid], []⟩ idx hidx
          (fun j h1 h2 => by
            by_cases hj : j < k
            · exact hprev j h1 hj
            · have hjk : j = k := by omega
              rw [hjk]
              exact htools)
      have e1 : (10 - k) + k = MAX_ITERATIONS := by unfold MAX_ITERATIONS; omega
      have e3 : 10 - k = (9 - k) + 1 := by omega
      rw [e1, e3] at heq
      cases hout : runRounds tools p script mid ((9 - k) + 1) (1 + k) st' with
      | ok r =>
        obtain ⟨t, ht⟩ :=
          (runRounds_trace_first tools p script mid (9 - k) (1 + k) st').1 r hout
        have hga := getAIResponse_of_ok tools p script mid msgs r (heq.trans hout)
        rw [hga, ht]
        have e4 : 1 + k = k + 1 := by omega
        rw [e4]
        exact List.mem_append_right _ (List.mem_cons_self _ _)
      | error er =>
        obtain ⟨emsg, stE⟩ := er
        have hshE := (runRounds_shape tools p script mid ((9 - k) + 1) (1 + k)
          st').2 emsg stE hout
        have hidx' : firstIdxWithId st'.messages mid = some idx := by
          rw [firstIdxWithId_congr _ _ _ (map_id_of_map_shape _ _ hsh)]
          exact hidx
        have hidxE : firstIdxWithId stE.messages mid = some idx := by
          rw [firstIdxWithId_congr _ _ _ (map_id_of_map_shape _ _ hshE)]
          exact hidx'
        have hga := getAIResponse_of_error tools p script mid msgs emsg stE idx
          (heq.trans hout) hidxE
        rw [hga]
        dsimp only
        obtain ⟨t, ht⟩ :=
          (runRounds_trace_first tools p script mid (9 - k) (1 + k) st').2
            emsg stE hout
        rw [ht]
        have e4 : 1 + k = k + 1 := by omega
        rw [e4]
        exact List.mem_append_right _ (List.mem_cons_self _ _)
    · intro hkeq
      obtain ⟨st', heq, htr, hsh, hob, hne⟩ :=
        runRounds_run_tools tools p script mid k 1 0
          ⟨msgs, msgs, [], getConversationHistory msgs [mid], []⟩ idx hidx
          (fun j h1 h2 => by
            by_cases hj : j < k
            · exact hprev j h1 hj
            · have hjk : j = k := by omega
              rw [hjk]
              exact htools)
      have e1 : 0 + k = MAX_ITERATIONS := by
        unfold MAX_ITERATIONS
        unfold MAX_ITERATIONS at hkeq
        omega
      rw [e1] at heq
      have hidx' : firstIdxWithId st'.messages mid = some idx := by
        rw [firstIdxWithId_congr _ _ _ (map_id_of_map_shape _ _ hsh)]
        exact hidx
      obtain ⟨r, hr, hrt, hrm, hrs, c, hlast⟩ :=
        runRounds_exhaust tools p script mid (1 + k) st' idx hidx'
      have hga := getAIResponse_of_ok tools p script mid msgs r (heq.trans hr)
      rw [hga]
      constructor
      · rw [hrt, htr]
        simp only [List.nil_append]
        rw [hkeq]
      · exact ⟨c, hlast⟩

/-- C2, amended: when every round up to the ceiling
`MAX_ITERATIONS = 10` requests tools, the loop stops after exactly 10
rounds — but the final `complete` broadcast carries only the message id
and content: its `totalIterations` field is absent (`none`), not `10`
(ChatRoom.ts 476-480 passes neither `iteration` nor `totalIterations`). -/
theorem c2_loop_exhaustion_amended (tools : List (String × Tool))
    (p : String → Option Json) (script : Nat → RoundOutcome) (mid : String)
    (msgs : List Message) (idx : Nat)
    (hidx : firstIdxWithId msgs mid = some idx)
    (hall : ∀ j, 1 ≤ j → j ≤ MAX_ITERATIONS →
      isStreamWithTools p (script j) = true) :
    (getAIResponse tools p script mid msgs).trace
        = List.range' 1 MAX_ITERATIONS
    ∧ ∃ c, (getAIResponse tools p script mid msgs).outbox.getLast?
        = some ⟨"complete", mid, some c, none, none, none⟩ := by
  obtain ⟨st', heq, htr, hsh, hob, hne⟩ :=
    runRounds_run_tools tools p script mid MAX_ITERATIONS 1 0
      ⟨msgs, msgs, [], getConversationHistory msgs [mid], []⟩ idx hidx
      (fun j h1 h2 => hall j h1 (by omega))
  have e1 : 0 + MAX_ITERATIONS = MAX_ITERATIONS := by omega
  rw [e1] at heq
  have hidx' : firstIdxWithId st'.messages mid = some idx := by
    rw [firstIdxWithId_congr _ _ _ (map_id_of_map_shape _ _ hsh)]
    exact hidx
  obtain ⟨r, hr, hrt, hrm, hrs, c, hlast⟩ :=
    runRounds_exhaust tools p script mid (1 + MAX_ITERATIONS) st' idx hidx'
  have hga := getAIResponse_of_ok tools p script mid msgs r (heq.trans hr)
  rw [hga]
  exact ⟨by rw [hrt, htr]; simp, c, hlast⟩

theorem c2_loop_exhaustion_amended_witness :
    (getAIResponse createToolRegistry sampleParse scriptAllTools "a1"
        sampleMessages).trace = List.range' 1 MAX_ITERATIONS
    ∧ ∃ c, (getAIResponse createToolRegistry sampleParse scriptAllTools "a1"
        sampleMessages).outbox.getLast?
        = some ⟨"complete", "a1", some c, none, none, none⟩ :=
  c2_loop_exhaustion_amended createToolRegistry sampleParse scriptAllTools "a1"
    sampleMessages 1 (by decide) (fun j h1 h2 => rfl)

/-- C2, counterexample to the claim as stated: with every round
requesting a tool, the loop does stop after exactly 10 rounds, but the
final `complete` event reports no `totalIterations` at all (`none`), in
particular not `totalIterations = 10`. -/
theorem c2_totalIterations_counterexample :
    (getAIResponse createToolRegistry sampleParse scriptAllTools "a1"
        sampleMessages).trace = List.range' 1 10
    ∧ ((getAIResponse createToolRegistry sampleParse scriptAllTools "a1"
        sampleMessages).outbox.getLast?).map Payload.totalIterations = some none
    ∧ ((getAIResponse createToolRegistry sampleParse scriptAllTools "a1"
        sampleMessages).outbox.getLast?).map Payload.totalIterations
        ≠ some (some 10) := by
  refine ⟨by decide, by decide, by decide⟩

theorem c1_agent_loop_round_dichotomy_witness :
    (getAIResponse createToolRegistry sampleParse scriptToolThenText "a1"
        sampleMessages).trace = List.range' 1 2
    ∧ ∃ c, (getAIResponse createToolRegistry sampleParse scriptToolThenText "a1"
        sampleMessages).outbox.getLast?
        = some ⟨"complete", "a1", some c, none, some 2, none⟩ :=
  (c1_agent_loop_round_dichotomy createToolRegistry sampleParse
    scriptToolThenText "a1" sampleMessages 2 1 (by decide) (by decide) (by decide)
    (fun j h1 h2 => by
      have hj : j = 1 := by omega
      rw [hj]
      rfl)).1 (by decide)

theorem runRounds_get_ne (tools : List (String × Tool))
    (p : String → Option Json) (script : Nat → RoundOutcome) (mid : String) :
    ∀ fuel iteration st idx j,
      firstIdxWithId st.messages mid = some idx → j ≠ idx →
      (∀ r, runRounds tools p script mid fuel iteration st = .ok r →
        r.messages[j]? = st.messages[j]?)
      ∧ (∀ e r, runRounds tools p script mid fuel iteration st = .error (e, r) →
        r.messages[j]? = st.messages[j]?) := by
  intro fuel
  induction fuel with
  | zero =>
    intro iteration st idx j hidx hj
    constructor
    · intro r hr
      simp only [runRounds, Except.ok.injEq] at hr
      subst hr
      rw [(finishExhausted_fields mid st).1]
    · intro e r hr
      simp only [runRounds] at hr
      exact Except.noConfusion hr
  | succ fuel ih =>
    intro iteration st idx j hidx hj
    have hnotj : firstIdxWithId st.messages mid ≠ some j := by
      rw [hidx]
      intro hcon
      exact hj (by injection hcon with h; exact h.symm)
    constructor
    · intro r hr
      simp only [runRounds] at hr
      cases hsc : script iteration with
      | httpError c => rw [hsc] at hr; simp at hr
      | streamOk ch =>
        rw [hsc] at hr
        dsimp only at hr
        by_cases hempty :
            (processStreamingResponse p st.messages st.outbox mid iteration
              ch).acc.toolUses.isEmpty
        · rw [if_pos hempty] at hr
          simp only [Except.ok.injEq] at hr
          subst hr
          rw [(finishNoTools_fields mid iteration _).1]
          exact processStreamingResponse_get_ne p st.messages st.outbox mid
            iteration ch j hnotj
        · rw [if_neg hempty] at hr
          have hps := processStreamingResponse_map_shape p st.messages st.outbox
            mid iteration ch
          have hidx1 : firstIdxWithId
              (processStreamingResponse p st.messages st.outbox mid iteration
                ch).messages mid = some idx := by
            rw [firstIdxWithId_congr _ _ _ (map_id_of_map_shape _ _ hps)]
            exact hidx
          have hsh5 := roundWithTools_messages_shape tools mid iteration
            ⟨(processStreamingResponse p st.messages st.outbox mid iteration ch).messages,
             (processStreamingResponse p st.messages st.outbox mid iteration ch).messages,
             (processStreamingResponse p st.messages st.outbox mid iteration ch).outbox,
             st.history, st.trace ++ [iteration]⟩
            (processStreamingResponse p st.messages st.outbox mid iteration ch).acc
          have hidx5 : firstIdxWithId
              (roundWithTools tools mid iteration
                ⟨(processStreamingResponse p st.messages st.outbox mid iteration ch).messages,
                 (processStreamingResponse p st.messages st.outbox mid iteration ch).messages,
                 (processStreamingResponse p st.messages st.outbox mid iteration ch).outbox,
                 st.history, st.trace ++ [iteration]⟩
                (processStreamingResponse p st.messages st.outbox mid iteration
                  ch).acc).messages mid = some idx := by
            rw [firstIdxWithId_congr _ _ _ (map_id_of_map_shape _ _ hsh5)]
            exact hidx1
          have h1 := ((ih (iteration + 1) _ idx j hidx5 hj).1) r hr
          rw [h1]
          rw [roundWithTools_get_ne tools mid iteration _ _ j (by
            rw [hidx1]
            intro hcon
            exact hj (by injection hcon with h; exact h.symm))]
          exact processStreamingResponse_get_ne p st.messages st.outbox mid
            iteration ch j hnotj
    · intro e r hr
      simp only [runRounds] at hr
      cases hsc : script iteration with
      | httpError c =>
        rw [hsc] at hr
        simp only [Except.error.injEq, Prod.mk.injEq] at hr
        obtain ⟨h1, h2⟩ := hr
        subst h2
        rfl
      | streamOk ch =>
        rw [hsc] at hr
        dsimp only at hr
        by_cases hempty :
            (processStreamingResponse p st.messages st.outbox mid iteration
              ch).acc.toolUses.isEmpty
        · rw [if_pos hempty] at hr
          simp at hr
        · rw [if_neg hempty] at hr
          have hps := processStreamingResponse_map_shape p st.messages st.outbox
            mid iteration ch
          have hidx1 : firstIdxWithId
              (processStreamingResponse p st.messages st.outbox mid iteration
                ch).messages mid = some idx := by
            rw [firstIdxWithId_congr _ _ _ (map_id_of_map_shape _ _ hps)]
            exact hidx
          have hsh5 := roundWithTools_messages_shape tools mid iteration
            ⟨(processStreamingResponse p st.messages st.outbox mid iteration ch).messages,
             (processStreamingResponse p st.messages st.outbox mid iteration ch).messages,
             (processStreamingResponse p st.messages st.outbox mid iteration ch).outbox,
             st.history, st.trace ++ [iteration]⟩
            (processStreamingResponse p st.messages st.outbox mid iteration ch).acc
          have hidx5 : firstIdxWithId
              (roundWithTools tools mid iteration
                ⟨(processStreamingResponse p st.messages st.outbox mid iteration ch).messages,
                 (processStreamingResponse p st.messages st.outbox mid iteration ch).messages,
                 (processStreamingResponse p st.messages st.outbox mid iteration ch).outbox,
                 st.history, st.trace ++ [iteration]⟩
                (processStreamingResponse p st.messages st.outbox mid iteration
                  ch).acc).messages mid = some idx := by
            rw [firstIdxWithId_congr _ _ _ (map_id_of_map_shape _ _ hsh5)]
            exact hidx1
          have h1 := ((ih (iteration + 1) _ idx j hidx5 hj).2) e r hr
          rw [h1]
          rw [roundWithTools_get_ne tools mid iteration _ _ j (by
            rw [hidx1]
            intro hcon
            exact hj (by injection hcon with h; exact h.symm))]
          exact processStreamingResponse_get_ne p st.messages st.outbox mid
            iteration ch j hnotj

theorem msg_content_override (m' m0 : Message) (h : m'.shape = m0.shape)
    (c : List ContentBlock) :
    ({ m' with content := c } : Message) = { m0 with content := c } := by
  cases m'
  cases m0
  simp only [Message.shape, Prod.mk.injEq] at h
  obtain ⟨h1, h2, h3⟩ := h
  simp [h1, h2, h3]

/-- C7: a non-2xx (or network) failure of the upstream model call in any
round is fatal to the current turn: the loop aborts in that round, the
in-progress assistant message's whole content is replaced by the fixed
apology text, that substitution is persisted (storage equals the final
log), an `error` event carrying the apology content and the thrown
message is the last broadcast, every other message of the log is
unchanged, and the session still accepts and wraps the next user
message. -/
theorem c7_upstream_failure_fatal (tools : List (String × Tool))
    (p : String → Option Json) (script : Nat → RoundOutcome) (mid : String)
    (msgs : List Message) (k idx status : Nat) (m0 : Message)
    (hidx : firstIdxWithId msgs mid = some idx)
    (hm0 : msgs[idx]? = some m0)
    (hk1 : 1 ≤ k) (hk2 : k ≤ MAX_ITERATIONS)
    (hprev : ∀ j, 1 ≤ j → j < k → isStreamWithTools p (script j) = true)
    (herr : script k = .httpError status) :
    (getAIResponse tools p script mid msgs).trace = List.range' 1 k
    ∧ (getAIResponse tools p script mid msgs).messages[idx]?
        = some { m0 with content := [ContentBlock.text apologyText] }
    ∧ (getAIResponse tools p script mid msgs).storage
        = (getAIResponse tools p script mid msgs).messages
    ∧ (getAIResponse tools p script mid msgs).outbox.getLast?
        = some ⟨"error", mid, some [ContentBlock.text apologyText], none, none,
            some ("Anthropic API error: " ++ toString status)⟩
    ∧ (∀ j, j ≠ idx →
        (getAIResponse tools p script mid msgs).messages[j]? = msgs[j]?)
    ∧ (∀ (s uid aid : String) (ts1 ts2 : Nat) (script2 : Nat → RoundOutcome),
        ((handleUserMessage tools p script2
            (getAIResponse tools p script mid msgs).messages s uid aid ts1
            ts2).frames)[0]?
          = some (.message ⟨uid, "user", [ContentBlock.text s], ts1⟩)) := by
  have hk2' : k ≤ 10 := hk2
  obtain ⟨st', heq, htr, hsh, hob, hne⟩ :=
    runRounds_run_tools tools p script mid (k - 1) 1 (11 - k)
      ⟨msgs, msgs, [], getConversationHistory msgs [mid], []⟩ idx hidx
      (fun j h1 h2 => hprev j h1 (by omega))
  have e1 : (11 - k) + (k - 1) = MAX_ITERATIONS := by unfold MAX_ITERATIONS; omega
  have e2 : 1 + (k - 1) = k := by omega
  have e3 : 11 - k = (10 - k) + 1 := by omega
  rw [e1, e2, e3] at heq
  have hhttp := runRounds_http tools p script mid (10 - k) k st' status herr
  have hrunE := heq.trans hhttp
  obtain ⟨m', hm', hshm⟩ := shape_at_of_map_shape msgs st'.messages idx hsh m0 hm0
  have hidxE : firstIdxWithId
      ({ st' with trace := st'.trace ++ [k] } : LoopState).messages mid
      = some idx := by
    show firstIdxWithId st'.messages mid = some idx
    rw [firstIdxWithId_congr _ _ _ (map_id_of_map_shape _ _ hsh)]
    exact hidx
  have hga := getAIResponse_of_error tools p script mid msgs
    ("Anthropic API error: " ++ toString status)
    { st' with trace := st'.trace ++ [k] } idx hrunE hidxE
  have hmE : ({ st' with trace := st'.trace ++ [k] } : LoopState).messages[idx]?
      = some m' := hm'
  refine ⟨?_, ?_, ?_, ?_, ?_, ?_⟩
  · rw [hga]
    dsimp only
    rw [htr]
    simp only [List.nil_append]
    have hrc : List.range' 1 ((k - 1) + 1) 1
        = List.range' 1 (k - 1) 1 ++ [1 + 1 * (k - 1)] :=
      List.range'_concat 1 (k - 1)
    have e4 : (k - 1) + 1 = k := by omega
    have e5 : 1 + 1 * (k - 1) = k := by omega
    rw [e4, e5] at hrc
    rw [← hrc]
  · rw [hga]
    dsimp only
    rw [modifyMessageAt_get_self _ idx _ m' hmE]
    rw [msg_content_override m' m0 hshm]
  · rw [hga]
  · rw [hga]
    dsimp only
    rw [List.getLast?_concat]
    rw [contentAt_modify_self _ idx _ m' hmE]
  · intro j hj
    rw [hga]
    dsimp only
    rw [modifyMessageAt_get_ne _ _ _ _ hj]
    have hgne := (runRounds_get_ne tools p script mid MAX_ITERATIONS 1
      ⟨msgs, msgs, [], getConversationHistory msgs [mid], []⟩ idx j hidx hj).2
      ("Anthropic API error: " ++ toString status)
      { st' with trace := st'.trace ++ [k] } hrunE
    exact hgne
  · intro s uid aid ts1 ts2 script2
    rfl

theorem c7_upstream_failure_fatal_witness :
    (getAIResponse createToolRegistry sampleParse scriptErrorRound2 "a1"
        sampleMessages).trace = List.range' 1 2
    ∧ (getAIResponse createToolRegistry sampleParse scriptErrorRound2 "a1"
        sampleMessages).messages[1]?
        = some { asstMsg0 with content := [ContentBlock.text apologyText] }
    ∧ (getAIResponse createToolRegistry sampleParse scriptErrorRound2 "a1"
        sampleMessages).outbox.getLast?
        = some ⟨"error", "a1", some [ContentBlock.text apologyText], none, none,
            some ("Anthropic API error: " ++ toString 500)⟩
    ∧ (getAIResponse createToolRegistry sampleParse scriptErrorRound2 "a1"
        sampleMessages).messages[0]? = sampleMessages[0]? := by
  have h := c7_upstream_failure_fatal createToolRegistry sampleParse
    scriptErrorRound2 "a1" sampleMessages 2 1 500 asstMsg0 (by decide) (by decide)
    (by decide) (by decide)
    (fun j h1 h2 => by
      have hj : j = 1 := by omega
      rw [hj]
      rfl)
    rfl
  exact ⟨h.1, h.2.1, h.2.2.2.1, h.2.2.2.2.1 0 (by decide)⟩

theorem getAIResponse_get_ne (tools : List (String × Tool))
    (p : String → Option Json) (script : Nat → RoundOutcome) (mid : String)
    (msgs : List Message) (idx j : Nat)
    (hidx : firstIdxWithId msgs mid = some idx) (hj : j ≠ idx) :
    (getAIResponse tools p script mid msgs).messages[j]? = msgs[j]? := by
  cases hout : runRounds tools p script mid MAX_ITERATIONS 1
      ⟨msgs, msgs, [], getConversationHistory msgs [mid], []⟩ with
  | ok r =>
    rw [getAIResponse_of_ok tools p script mid msgs r hout]
    exact (runRounds_get_ne tools p script mid MAX_ITERATIONS 1
      ⟨msgs, msgs, [], getConversationHistory msgs [mid], []⟩ idx j hidx hj).1
      r hout
  | error er =>
    obtain ⟨emsg, stE⟩ := er
    have hshE := (runRounds_shape tools p script mid MAX_ITERATIONS 1
      ⟨msgs, msgs, [], getConversationHistory msgs [mid], []⟩).2 emsg stE hout
    have hidxE : firstIdxWithId stE.messages mid = some idx := by
      rw [firstIdxWithId_congr _ _ _ (map_id_of_map_shape _ _ hshE)]
      exact hidx
    rw [getAIResponse_of_error tools p script mid msgs emsg stE idx hout hidxE]
    dsimp only
    rw [modifyMessageAt_get_ne _ _ _ _ hj]
    exact (runRounds_get_ne tools p script mid MAX_ITERATIONS 1
      ⟨msgs, msgs, [], getConversationHistory msgs [mid], []⟩ idx j hidx hj).2
      emsg stE hout

theorem getAIResponse_storage (tools : List (String × Tool))
    (p : String → Option Json) (script : Nat → RoundOutcome) (mid : String)
    (msgs : List Message) (idx : Nat)
    (hidx : firstIdxWithId msgs mid = some idx) :
    (getAIResponse tools p script mid msgs).storage
      = (getAIResponse tools p script mid msgs).messages := by
  cases hout : runRounds tools p script mid MAX_ITERATIONS 1
      ⟨msgs, msgs, [], getConversationHistory msgs [mid], []⟩ with
  | ok r =>
    rw [getAIResponse_of_ok tools p script mid msgs r hout]
    exact runRounds_ok_storage tools p script mid MAX_ITERATIONS 1 _ r hout
  | error er =>
    obtain ⟨emsg, stE⟩ := er
    have hshE := (runRounds_shape tools p script mid MAX_ITERATIONS 1
      ⟨msgs, msgs, [], getConversationHistory msgs [mid], []⟩).2 emsg stE hout
    have hidxE : firstIdxWithId stE.messages mid = some idx := by
      rw [firstIdxWithId_congr _ _ _ (map_id_of_map_shape _ _ hshE)]
      exact hidx
    rw [getAIResponse_of_error tools p script mid msgs emsg stE idx hout hidxE]

/-- C10: a well-formed client frame `{type:"message", content:s}` makes
the session append (and broadcast and persist) a user message whose
content is exactly one text block holding `s` verbatim — the string is
wrapped, never split, dropped, or stored raw. -/
theorem c10_user_frame_wrapped (tools : List (String × Tool))
    (p : String → Option Json) (script : Nat → RoundOutcome)
    (msgs : List Message) (s uid aid : String) (ts1 ts2 : Nat)
    (hneq : uid ≠ aid) :
    ((handleUserMessage tools p script msgs s uid aid ts1 ts2).frames)[0]?
      = some (.message ⟨uid, "user", [ContentBlock.text s], ts1⟩)
    ∧ ((handleUserMessage tools p script msgs s uid aid ts1 ts2).messages)[msgs.length]?
      = some ⟨uid, "user", [ContentBlock.text s], ts1⟩
    ∧ ((handleUserMessage tools p script msgs s uid aid ts1 ts2).storage)[msgs.length]?
      = some ⟨uid, "user", [ContentBlock.text s], ts1⟩ := by
  have hmem : aid ∈ (msgs ++ [(⟨uid, "user", [ContentBlock.text s], ts1⟩ : Message)]
      ++ [(⟨aid, "assistant", [], ts2⟩ : Message)]).map Message.id := by
    simp
  have hsome := (firstIdxWithId_isSome_iff _ aid).mpr hmem
  cases hidx : firstIdxWithId (msgs ++ [(⟨uid, "user", [ContentBlock.text s], ts1⟩ : Message)]
      ++ [(⟨aid, "assistant", [], ts2⟩ : Message)]) aid with
  | none => rw [hidx] at hsome; simp at hsome
  | some idx =>
    obtain ⟨mI, hmI, hmIid⟩ := firstIdxWithId_spec _ _ _ hidx
    have hugets : (msgs ++ [(⟨uid, "user", [ContentBlock.text s], ts1⟩ : Message)]
        ++ [(⟨aid, "assistant", [], ts2⟩ : Message)])[msgs.length]?
        = some ⟨uid, "user", [ContentBlock.text s], ts1⟩ := by
      rw [List.append_assoc, List.getElem?_append_right (Nat.le_refl _)]
      simp
    have hne : msgs.length ≠ idx := by
      intro he
      rw [← he] at hmI
      rw [hugets] at hmI
      injection hmI with hmI2
      rw [← hmI2] at hmIid
      exact hneq hmIid
    refine ⟨rfl, ?_, ?_⟩
    · show (getAIResponse tools p script aid
        (msgs ++ [(⟨uid, "user", [ContentBlock.text s], ts1⟩ : Message)]
          ++ [(⟨aid, "assistant", [], ts2⟩ : Message)])).messages[msgs.length]?
        = some ⟨uid, "user", [ContentBlock.text s], ts1⟩
      rw [getAIResponse_get_ne tools p script aid _ idx msgs.length hidx hne]
      exact hugets
    · show (getAIResponse tools p script aid
        (msgs ++ [(⟨uid, "user", [ContentBlock.text s], ts1⟩ : Message)]
          ++ [(⟨aid, "assistant", [], ts2⟩ : Message)])).storage[msgs.length]?
        = some ⟨uid, "user", [ContentBlock.text s], ts1⟩
      rw [getAIResponse_storage tools p script aid _ idx hidx]
      rw [getAIResponse_get_ne tools p script aid _ idx msgs.length hidx hne]
      exact hugets

theorem c10_user_frame_wrapped_witness :
    ((handleUserMessage createToolRegistry sampleParse scriptToolThenText
        sampleMessages "what is 7 + 5" "u9" "a9" 200 201).frames)[0]?
      = some (.message ⟨"u9", "user", [ContentBlock.text "what is 7 + 5"], 200⟩)
    ∧ ((handleUserMessage createToolRegistry sampleParse scriptToolThenText
        sampleMessages "what is 7 + 5" "u9" "a9" 200 201).messages)[sampleMessages.length]?
      = some ⟨"u9", "user", [ContentBlock.text "what is 7 + 5"], 200⟩
    ∧ ((handleUserMessage createToolRegistry sampleParse scriptToolThenText
        sampleMessages "what is 7 + 5" "u9" "a9" 200 201).storage)[sampleMessages.length]?
      = some ⟨"u9", "user", [ContentBlock.text "what is 7 + 5"], 200⟩ :=
  c10_user_frame_wrapped createToolRegistry sampleParse scriptToolThenText
    sampleMessages "what is 7 + 5" "u9" "a9" 200 201 (by decide)

theorem auxSplit_ne_nil : ∀ (s pre : List Char), auxSplit pre s ≠ [] := by
  intro s
  induction s with
  | nil => intro pre h; simp [auxSplit] at h
  | cons c cs ih =>
    intro pre h
    by_cases hc : c = '\n'
    · rw [auxSplit, if_pos hc] at h
      exact List.noConfusion h
    · rw [auxSplit, if_neg hc] at h
      exact ih (pre ++ [c]) h

theorem getLastD_ne_nil_default (X : List (List Char)) (d₁ d₂ : List Char)
    (h : X ≠ []) : X.getLastD d₁ = X.getLastD d₂ := by
  cases X with
  | nil => exact absurd rfl h
  | cons a l => rfl

theorem charFold_eq_auxSplit :
    ∀ (s buf : List Char) (E : List (List Char)),
      List.foldl charStep ⟨E, buf⟩ s
        = ⟨E ++ (auxSplit buf s).dropLast, (auxSplit buf s).getLastD []⟩ := by
  intro s
  induction s with
  | nil => intro buf E; simp [auxSplit]
  | cons c cs ih =>
    intro buf E
    by_cases hc : c = '\n'
    · subst hc
      rw [List.foldl_cons]
      have hstep : charStep ⟨E, buf⟩ '\n' = ⟨E ++ [buf], []⟩ := by
        simp [charStep]
      rw [hstep, ih [] (E ++ [buf])]
      rw [auxSplit, if_pos rfl]
      cases hX : auxSplit [] cs with
      | nil => exact absurd hX (auxSplit_ne_nil cs [])
      | cons x xs =>
        simp [List.append_assoc, getLastD_ne_nil_default]
    · rw [List.foldl_cons]
      have hstep : charStep ⟨E, buf⟩ c = ⟨E, buf ++ [c]⟩ := by
        simp [charStep, hc]
      rw [hstep, ih (buf ++ [c]) E, auxSplit, if_neg hc]

theorem auxSplit_last_no_nl :
    ∀ (s pre : List Char), '\n' ∉ pre → '\n' ∉ (auxSplit pre s).getLastD [] := by
  intro s
  induction s with
  | nil => intro pre h; simpa [auxSplit] using h
  | cons c cs ih =>
    intro pre h
    by_cases hc : c = '\n'
    · rw [auxSplit, if_pos hc]
      cases hX : auxSplit [] cs with
      | nil => exact absurd hX (auxSplit_ne_nil cs [])
      | cons x xs =>
        have := ih [] (by simp)
        rw [hX] at this
        exact this
    · rw [auxSplit, if_neg hc]
      refine ih (pre ++ [c]) ?_
      intro hmem
      rcases List.mem_append.mp hmem with h1 | h1
      · exact h h1
      · simp at h1
        exact hc h1.symm

theorem auxSplit_shift :
    ∀ (b s pre : List Char), '\n' ∉ b →
      auxSplit pre (b ++ s) = auxSplit (pre ++ b) s := by
  intro b
  induction b with
  | nil => intro s pre h; simp
  | cons c b' ih =>
    intro s pre h
    have hc : c ≠ '\n' := by
      intro he
      exact h (by rw [he]; exact List.mem_cons_self _ _)
    rw [List.cons_append, auxSplit, if_neg hc, ih s (pre ++ [c]) (by
      intro hmem
      exact h (List.mem_cons_of_mem _ hmem))]
    rw [List.append_assoc]
    rfl

theorem feedChunk_eq_charFold (st : ChunkState) (chunk : List Char)
    (h : '\n' ∉ st.buffer) :
    feedChunk st chunk = List.foldl charStep st chunk := by
  unfold feedChunk
  dsimp only
  rw [auxSplit_shift st.buffer chunk [] h]
  simp only [List.nil_append]
  have := charFold_eq_auxSplit chunk st.buffer st.emitted
  rw [this]

theorem feedChunk_buffer_no_nl (st : ChunkState) (chunk : List Char) :
    '\n' ∉ (feedChunk st chunk).buffer := by
  unfold feedChunk
  exact auxSplit_last_no_nl (st.buffer ++ chunk) [] (by simp)

theorem foldFeed_eq_charFold :
    ∀ (cs : List (List Char)) (st : ChunkState), '\n' ∉ st.buffer →
      List.foldl feedChunk st cs = List.foldl charStep st cs.flatten := by
  intro cs
  induction cs with
  | nil => intro st h; rfl
  | cons c cs ih =>
    intro st h
    rw [List.foldl_cons, ih (feedChunk st c) (feedChunk_buffer_no_nl st c)]
    rw [feedChunk_eq_charFold st c h]
    rw [List.flatten_cons, List.foldl_append]

/-- C5: the stream decoder is chunk-boundary invariant — two chunk
sequences carrying the same byte stream produce the identical sequence
of complete lines (the trailing incomplete line being buffered across
reads and processed only once complete), and hence the identical ordered
sequence of logical SSE events for every JSON parser. -/
theorem c5_chunk_boundary_invariance (chunks1 chunks2 : List (List Char))
    (h : chunks1.flatten = chunks2.flatten) :
    decodeLines chunks1 = decodeLines chunks2
    ∧ ∀ p : String → Option Json,
        decodeEvents p chunks1 = decodeEvents p chunks2 := by
  have hlines : decodeLines chunks1 = decodeLines chunks2 := by
    unfold decodeLines
    rw [foldFeed_eq_charFold chunks1 ⟨[], []⟩ (by simp),
      foldFeed_eq_charFold chunks2 ⟨[], []⟩ (by simp), h]
  exact ⟨hlines, fun p => by unfold decodeEvents; rw [hlines]⟩

theorem c5_chunk_boundary_invariance_witness :
    decodeLines toolChunks
        = decodeLines ["data: TSTART\ndata: TDELTA\ndata: TSTOP\n".toList]
    ∧ decodeEvents sampleParse toolChunks
        = decodeEvents sampleParse
            ["data: TSTART\ndata: TDELTA\ndata: TSTOP\n".toList] := by
  have h := c5_chunk_boundary_invariance toolChunks
    ["data: TSTART\ndata: TDELTA\ndata: TSTOP\n".toList] (by decide)
  exact ⟨h.1, h.2 sampleParse⟩

theorem strFoldl_append :
    ∀ (frags : List String) (x y : String),
      frags.foldl (fun r s => r ++ s) (x ++ y)
        = x ++ frags.foldl (fun r s => r ++ s) y := by
  intro frags
  induction frags with
  | nil => intro x y; rfl
  | cons f fs ih =>
    intro x y
    rw [List.foldl_cons, List.foldl_cons, String.append_assoc, ih]

theorem strJoin_cons (f : String) (fs : List String) :
    String.join (f :: fs) = f ++ String.join fs := by
  unfold String.join
  rw [List.foldl_cons, String.empty_append]
  have h : fs.foldl (fun r s => r ++ s) f
      = fs.foldl (fun r s => r ++ s) (f ++ "") := by
    rw [String.append_empty]
  rw [h, strFoldl_append]

theorem accStep_deltas (p : String → Option Json) :
    ∀ (frags : List String) (a : StreamAcc),
      List.foldl (accStep p) a (frags.map SSEData.inputJsonDelta)
        = { a with toolInput := a.toolInput ++ String.join frags } := by
  intro frags
  induction frags with
  | nil =>
    intro a
    show a = { a with toolInput := a.toolInput ++ String.join [] }
    cases a
    simp [String.join, String.append_empty]
  | cons f fs ih =>
    intro a
    rw [List.map_cons, List.foldl_cons]
    have h1 : accStep p a (SSEData.inputJsonDelta f)
        = { a with toolInput := a.toolInput ++ f } := rfl
    rw [h1, ih, strJoin_cons, ← String.append_assoc]

/-- C8: tool-call input fragments are concatenated in arrival order and
parsed as one JSON value only at the block-stop event; a failed parse
discards the call — it never enters the round's tool-call list (so no
tool will execute for it) — while a successful parse appends exactly one
request carrying the parsed value; either way the decoder's state is
cleanly reset and the shared log and broadcasts are untouched, so the
rest of the stream is processed as if the block had not occurred. -/
theorem c8_tool_input_fragments (p : String → Option Json) (mid : String)
    (it idx : Nat) (id name : String) (frags : List String) (st : ProcState) :
    ((SSEData.toolUseStart id name ::
        (frags.map SSEData.inputJsonDelta ++ [SSEData.blockStop])).foldl
        (procStep p mid it idx) st).messages = st.messages
    ∧ ((SSEData.toolUseStart id name ::
        (frags.map SSEData.inputJsonDelta ++ [SSEData.blockStop])).foldl
        (procStep p mid it idx) st).outbox = st.outbox
    ∧ ((SSEData.toolUseStart id name ::
        (frags.map SSEData.inputJsonDelta ++ [SSEData.blockStop])).foldl
        (procStep p mid it idx) st).acc.currentToolUse = none
    ∧ ((SSEData.toolUseStart id name ::
        (frags.map SSEData.inputJsonDelta ++ [SSEData.blockStop])).foldl
        (procStep p mid it idx) st).acc.toolInput = ""
    ∧ (p (String.join frags) = none →
        ((SSEData.toolUseStart id name ::
          (frags.map SSEData.inputJsonDelta ++ [SSEData.blockStop])).foldl
          (procStep p mid it idx) st).acc.toolUses = st.acc.toolUses)
    ∧ (∀ j, p (String.join frags) = some j →
        ((SSEData.toolUseStart id name ::
          (frags.map SSEData.inputJsonDelta ++ [SSEData.blockStop])).foldl
          (procStep p mid it idx) st).acc.toolUses
          = st.acc.toolUses ++ [⟨id, name, j⟩]) := by
  have hnontext : ∀ ev ∈ (SSEData.toolUseStart id name ::
      (frags.map SSEData.inputJsonDelta ++ [SSEData.blockStop])),
      ∀ d, ev ≠ SSEData.textDelta d := by
    intro ev hev d
    rcases List.mem_cons.mp hev with h | h
    · rw [h]; intro hcon; exact SSEData.noConfusion hcon
    · rcases List.mem_append.mp h with h2 | h2
      · obtain ⟨f, hf, hfe⟩ := List.mem_map.mp h2
        rw [← hfe]; intro hcon; exact SSEData.noConfusion hcon
      · simp only [List.mem_singleton] at h2
        rw [h2]; intro hcon; exact SSEData.noConfusion hcon
  have hmo : ∀ (evs : List SSEData),
      (∀ ev ∈ evs, ∀ d, ev ≠ SSEData.textDelta d) →
      ∀ s : ProcState,
        (evs.foldl (procStep p mid it idx) s).messages = s.messages
        ∧ (evs.foldl (procStep p mid it idx) s).outbox = s.outbox := by
    intro evs
    induction evs with
    | nil => intro h s; exact ⟨rfl, rfl⟩
    | cons ev evs ih =>
      intro h s
      rw [List.foldl_cons]
      have h1 := ih (fun e he d => h e (List.mem_cons_of_mem _ he) d)
        (procStep p mid it idx s ev)
      have h2 : (procStep p mid it idx s ev).messages = s.messages
          ∧ (procStep p mid it idx s ev).outbox = s.outbox := by
        cases ev with
        | textDelta d => exact absurd rfl (h _ (List.mem_cons_self _ _) d)
        | _ => exact ⟨rfl, rfl⟩
      exact ⟨h1.1.trans h2.1, h1.2.trans h2.2⟩
  have hacc := foldProc_acc p mid it idx (SSEData.toolUseStart id name ::
    (frags.map SSEData.inputJsonDelta ++ [SSEData.blockStop])) st
  have haccval : List.foldl (accStep p) st.acc (SSEData.toolUseStart id name ::
      (frags.map SSEData.inputJsonDelta ++ [SSEData.blockStop]))
      = accStep p { st.acc with
          currentToolUse := some (id, name)
          toolInput := "" ++ String.join frags } SSEData.blockStop := by
    rw [List.foldl_cons, List.foldl_append]
    have h1 : accStep p st.acc (SSEData.toolUseStart id name)
        = { st.acc with currentToolUse := some (id, name), toolInput := "" } := rfl
    rw [h1, accStep_deltas]
    rfl
  have hmsg := (hmo _ hnontext st).1
  have hob := (hmo _ hnontext st).2
  refine ⟨hmsg, hob, ?_, ?_, ?_, ?_⟩
  · rw [hacc, haccval]
    show (accStep p _ SSEData.blockStop).currentToolUse = none
    unfold accStep
    dsimp only
    cases p ("" ++ String.join frags) <;> rfl
  · rw [hacc, haccval]
    unfold accStep
    dsimp only
    cases p ("" ++ String.join frags) <;> rfl
  · intro hp
    rw [hacc, haccval]
    unfold accStep
    dsimp only
    rw [String.empty_append, hp]
  · intro j hp
    rw [hacc, haccval]
    unfold accStep
    dsimp only
    rw [String.empty_append, hp]

theorem c8_tool_input_fragments_witness :
    ((SSEData.toolUseStart "tu9" "calculator" ::
        (badFrags.map SSEData.inputJsonDelta ++ [SSEData.blockStop])).foldl
        (procStep sampleParse "a1" 1 0)
        ⟨sampleMessages, [], emptyAcc⟩).acc.toolUses = emptyAcc.toolUses
    ∧ ((SSEData.toolUseStart "tu9" "calculator" ::
        (goodFrags.map SSEData.inputJsonDelta ++ [SSEData.blockStop])).foldl
        (procStep sampleParse "a1" 1 0)
        ⟨sampleMessages, [], emptyAcc⟩).acc.toolUses
        = emptyAcc.toolUses ++ [⟨"tu9", "calculator",
            Json.jobj [("operation", .jstr "add"), ("a", .jnum 7),
              ("b", .jnum 5)]⟩] := by
  constructor
  · exact (c8_tool_input_fragments sampleParse "a1" 1 0 "tu9" "calculator"
      badFrags ⟨sampleMessages, [], emptyAcc⟩).2.2.2.2.1 (by decide)
  · exact (c8_tool_input_fragments sampleParse "a1" 1 0 "tu9" "calculator"
      goodFrags ⟨sampleMessages, [], emptyAcc⟩).2.2.2.2.2 _ (by decide)

/-- C4: streamed text follows the extend-or-open rule.  In any state
satisfying the streaming-round invariant (the round accumulator is empty
unless the focused message's last block is a text block holding exactly
the accumulated round text — the state every reachable round satisfies,
since tool blocks are appended only between rounds and each round starts
with a fresh accumulator), a text delta rewrites the content exactly as
the spec's `appendText`: extend the last block when it is a text block,
else open a new text block.  In particular (closed conjuncts): feeding
`"Hi"` then `" there"` to an empty message yields the single block
`Text "Hi there"`, and a tool block interleaved between two rounds of
text yields `[Text "Hi", ToolUse, Text " there"]` with no text merged
across the tool block. -/
theorem c4_append_text_extend_or_open (p : String → Option Json)
    (mid : String) (it idx : Nat) (d : String) (st : ProcState) (m : Message)
    (hm : st.messages[idx]? = some m)
    (hlast : match m.content.getLast? with
      | some (ContentBlock.text t) => t = st.acc.textContent
      | _ => st.acc.textContent = "") :
    (contentAt (procStep p mid it idx st (.textDelta d)).messages idx
        = appendTextSpec m.content d
      ∧ (procStep p mid it idx st (.textDelta d)).acc.textContent
        = st.acc.textContent ++ d)
    ∧ contentAt (([SSEData.textDelta "Hi", SSEData.textDelta " there"].foldl
        (procStep sampleParse "m1" 1 0) ⟨[msgA], [], emptyAcc⟩).messages) 0
        = [ContentBlock.text "Hi there"]
    ∧ contentAt (([SSEData.textDelta " there"].foldl
        (procStep sampleParse "m1" 2 0)
        ⟨(executeTools createToolRegistry
            (([SSEData.textDelta "Hi"].foldl (procStep sampleParse "m1" 1 0)
              ⟨[msgA], [], emptyAcc⟩).messages)
            (([SSEData.textDelta "Hi"].foldl (procStep sampleParse "m1" 1 0)
              ⟨[msgA], [], emptyAcc⟩).outbox)
            "m1" 1 [reqCalcAdd75]).messages,
         (executeTools createToolRegistry
            (([SSEData.textDelta "Hi"].foldl (procStep sampleParse "m1" 1 0)
              ⟨[msgA], [], emptyAcc⟩).messages)
            (([SSEData.textDelta "Hi"].foldl (procStep sampleParse "m1" 1 0)
              ⟨[msgA], [], emptyAcc⟩).outbox)
            "m1" 1 [reqCalcAdd75]).outbox,
         emptyAcc⟩).messages) 0
        = [ContentBlock.text "Hi",
           ContentBlock.toolUse "A" "calculator" argsAdd75 (some .complete)
             (some "The result of 7 add 5 is 12"),
           ContentBlock.text " there"] := by
  refine ⟨⟨?_, rfl⟩, by decide, by decide⟩
  show contentAt (modifyMessageAt st.messages idx
      (fun m2 => { m2 with content :=
                     putText m2.content (st.acc.textContent ++ d) })) idx
    = appendTextSpec m.content d
  rw [contentAt_modify_self _ idx _ m hm]
  show putText m.content (st.acc.textContent ++ d) = appendTextSpec m.content d
  unfold putText appendTextSpec
  cases hgl : m.content.getLast? with
  | none =>
    simp only [hgl] at hlast
    rw [hlast, String.empty_append]
  | some b =>
    cases b with
    | text t =>
      simp only [hgl] at hlast
      rw [hlast]
    | toolUse a1 a2 a3 a4 a5 =>
      simp only [hgl] at hlast
      rw [hlast, String.empty_append]
    | toolResult a1 a2 =>
      simp only [hgl] at hlast
      rw [hlast, String.empty_append]

theorem c4_append_text_extend_or_open_witness :
    contentAt ((procStep sampleParse "m1" 1 0 ⟨[msgA], [], emptyAcc⟩
        (.textDelta "Hi")).messages) 0 = appendTextSpec msgA.content "Hi"
    ∧ (procStep sampleParse "m1" 1 0 ⟨[msgA], [], emptyAcc⟩
        (.textDelta "Hi")).acc.textContent = emptyAcc.textContent ++ "Hi" :=
  (c4_append_text_extend_or_open sampleParse "m1" 1 0 "Hi"
    ⟨[msgA], [], emptyAcc⟩ msgA rfl rfl).1

/-- C3, counterexample to the claim as stated: with two model-requested
calculator calls (an addition `A` then a multiplication `B`), the
injected `validate_sum` is NOT placed immediately after its trigger `A`:
position 1 of the round's list is still `B` (a calculator call) and the
injected call sits at the very end of the list — both earlier revisions
`push(...)` the collected validations after all requested calls
(part_002 line 488 / part_003 line 411). -/
theorem c3_injection_position_counterexample :
    V2.autoInjectValidation freshV [reqCalcAdd75, reqCalcMul23]
      = [reqCalcAdd75, reqCalcMul23, V2.mkValidation (freshV 0) reqCalcAdd75]
    ∧ ((V2.autoInjectValidation freshV [reqCalcAdd75, reqCalcMul23])[1]?).map
        ToolUseReq.name = some "calculator"
    ∧ ((V2.autoInjectValidation freshV [reqCalcAdd75, reqCalcMul23])[2]?).map
        ToolUseReq.name = some "validate_sum" := by
  refine ⟨by decide, by decide, by decide⟩

theorem V2.scan_enumFrom (freshId : Nat → String) :
    ∀ (tus : List ToolUseReq) (vs : List ToolUseReq) (n : Nat),
      tus.foldl
        (fun (acc : List ToolUseReq × Nat) tu =>
          if V2.isAddCalculator tu then
            (acc.1 ++ [V2.mkValidation (freshId acc.2) tu], acc.2 + 1)
          else acc)
        (vs, n)
      = (vs ++ ((tus.filter V2.isAddCalculator).enumFrom n).map
            (fun p => V2.mkValidation (freshId p.1) p.2),
         n + (tus.filter V2.isAddCalculator).length) := by
  intro tus
  induction tus with
  | nil => intro vs n; simp
  | cons tu tus ih =>
    intro vs n
    rw [List.foldl_cons]
    by_cases htu : V2.isAddCalculator tu = true
    · rw [if_pos htu]
      rw [ih (vs ++ [V2.mkValidation (freshId n) tu]) (n + 1)]
      rw [List.filter_cons_of_pos htu]
      refine Prod.ext ?_ ?_
      · show vs ++ [V2.mkValidation (freshId n) tu] ++ _ = _
        rw [List.enumFrom_cons, List.map_cons, List.append_assoc]
        rfl
      · show n + 1 + (tus.filter V2.isAddCalculator).length
          = n + (tu :: tus.filter V2.isAddCalculator).length
        rw [List.length_cons]
        omega
    · rw [if_neg htu]
      rw [ih vs n]
      rw [List.filter_cons_of_neg (by simpa using htu)]

/-- C3, amended: in the auto-follow-up revisions of the worker, the
deterministic check runs on every collected call after streaming and
before any tool executes, and every calculator addition does trigger a
chained `validate_sum` call carrying the same operands and the computed
sum — but the injected calls are appended at the END of the round's call
list (in trigger order, one per trigger), not immediately after their
triggering calls; all requested-then-injected calls then execute
sequentially in that appended order, each producing a `ToolResult` in
list position. -/
theorem c3_auto_follow_up_amended (freshId : Nat → String)
    (tus : List ToolUseReq) (tools : List (String × Tool)) :
    V2.autoInjectValidation freshId tus
      = tus ++ V2.validationList freshId tus
    ∧ (V2.executeRound tools freshId tus).map ToolResult.tool_use_id
      = (tus ++ V2.validationList freshId tus).map ToolUseReq.id
    ∧ (∀ i tu, (tus.filter V2.isAddCalculator)[i]? = some tu →
        (V2.validationList freshId tus)[i]?
          = some (V2.mkValidation (freshId i) tu))
    ∧ (∀ (s : String) (tu : ToolUseReq) (n1 n2 : Int),
        tu.input.numField "a" = some n1 → tu.input.numField "b" = some n2 →
        (V2.mkValidation s tu).name = "validate_sum"
        ∧ (V2.mkValidation s tu).input.numField "expected_result"
            = some (n1 + n2)) := by
  have h1 : V2.autoInjectValidation freshId tus
      = tus ++ V2.validationList freshId tus := by
    unfold V2.autoInjectValidation V2.validationList
    dsimp only
    rw [V2.scan_enumFrom freshId tus [] 0]
    rfl
  have hmapid : ∀ (l : List ToolUseReq),
      (l.map (fun tu =>
        match executeTool tools tu.name tu.input with
        | .ok r => (⟨tu.id, r⟩ : ToolResult)
        | .error e => (⟨tu.id, "Error: " ++ e⟩ : ToolResult))).map
          ToolResult.tool_use_id
      = l.map ToolUseReq.id := by
    intro l
    induction l with
    | nil => rfl
    | cons tu l ih =>
      rw [List.map_cons, List.map_cons, List.map_cons, ih]
      cases executeTool tools tu.name tu.input <;> rfl
  refine ⟨h1, ?_, ?_, ?_⟩
  · unfold V2.executeRound
    rw [h1, hmapid]
  · intro i tu htu
    unfold V2.validationList
    rw [List.getElem?_map, List.getElem?_enum, htu]
    rfl
  · intro s tu n1 n2 hna hnb
    constructor
    · rfl
    · unfold V2.mkValidation
      dsimp only
      rw [hna, hnb]
      rfl

theorem c3_auto_follow_up_amended_witness :
    V2.autoInjectValidation freshV [reqCalcAdd75, reqCalcMul23]
      = [reqCalcAdd75, reqCalcMul23]
        ++ V2.validationList freshV [reqCalcAdd75, reqCalcMul23]
    ∧ (V2.validationList freshV [reqCalcAdd75, reqCalcMul23])[0]?
      = some (V2.mkValidation (freshV 0) reqCalcAdd75)
    ∧ (V2.mkValidation "V0" reqCalcAdd75).name = "validate_sum"
    ∧ (V2.mkValidation "V0" reqCalcAdd75).input.numField "expected_result"
      = some (7 + 5) := by
  have h := c3_auto_follow_up_amended freshV [reqCalcAdd75, reqCalcMul23]
    createToolRegistry
  exact ⟨h.1, h.2.2.1 0 reqCalcAdd75 (by decide),
    (h.2.2.2 "V0" reqCalcAdd75 7 5 (by decide) (by decide)).1,
    (h.2.2.2 "V0" reqCalcAdd75 7 5 (by decide) (by decide)).2⟩

theorem toolBlockIds_append (c d : List ContentBlock) :
    toolBlockIds (c ++ d) = toolBlockIds c ++ toolBlockIds d := by
  induction c with
  | nil => rfl
  | cons b c ih =>
    cases b with
    | text t => simpa [toolBlockIds] using ih
    | toolUse a1 a2 a3 a4 a5 => simpa [toolBlockIds] using ih
    | toolResult a1 a2 => simpa [toolBlockIds] using ih

theorem resolveFirst_append_not_mem (id : String) (stt : Status)
    (res : Option String) (c d : List ContentBlock)
    (h : id ∉ toolBlockIds c) :
    resolveFirstToolUse id stt res (c ++ d)
      = c ++ resolveFirstToolUse id stt res d := by
  induction c with
  | nil => rfl
  | cons b c ih =>
    cases b with
    | text t =>
      simp only [List.cons_append, resolveFirstToolUse]
      exact congrArg (ContentBlock.text t :: ·) (ih (by simpa [toolBlockIds] using h))
    | toolUse bid a2 a3 a4 a5 =>
      have hbid : bid ≠ id := by
        intro he
        exact h (by rw [← he]; exact List.mem_cons_self _ _)
      simp only [List.cons_append, resolveFirstToolUse, if_neg hbid]
      exact congrArg (ContentBlock.toolUse bid a2 a3 a4 a5 :: ·)
        (ih (fun hmem => h (List.mem_cons_of_mem _ hmem)))
    | toolResult a1 a2 =>
      simp only [List.cons_append, resolveFirstToolUse]
      exact congrArg (ContentBlock.toolResult a1 a2 :: ·)
        (ih (by simpa [toolBlockIds] using h))

theorem resolveFirst_running_ok (tu : ToolUseReq) (r : String) :
    resolveFirstToolUse tu.id Status.complete (some r) [runningBlock tu]
      = [ContentBlock.toolUse tu.id tu.name tu.input (some .complete) (some r)] := by
  simp [resolveFirstToolUse, runningBlock]

theorem resolveFirst_running_error (tu : ToolUseReq) :
    resolveFirstToolUse tu.id Status.error none [runningBlock tu]
      = [ContentBlock.toolUse tu.id tu.name tu.input (some .error) none] := by
  simp [resolveFirstToolUse, runningBlock]

theorem resolvedBlock_id (tools : List (String × Tool)) (tu : ToolUseReq) :
    toolBlockIds [resolvedBlock tools tu] = [tu.id] := by
  unfold resolvedBlock
  cases executeTool tools tu.name tu.input <;> rfl

theorem stepTool_at_idx (tools : List (String × Tool)) (mid : String)
    (it idx : Nat) (st : ExecState) (tu : ToolUseReq) (m : Message)
    (hm : st.messages[idx]? = some m)
    (hfresh : tu.id ∉ toolBlockIds m.content) :
    (stepTool tools mid it idx st tu).messages[idx]?
      = some { m with content := m.content ++ [resolvedBlock tools tu] }
    ∧ (stepTool tools mid it idx st tu).outbox
      = st.outbox ++ [⟨"update", mid, some (m.content ++ [runningBlock tu]),
          some it, none, none⟩,
        ⟨"update", mid, some (m.content ++ [resolvedBlock tools tu]),
          some it, none, none⟩] := by
  have h1 : (modifyMessageAt st.messages idx
      (fun m2 => { m2 with content := m2.content
        ++ [ContentBlock.toolUse tu.id tu.name tu.input (some .running) none] }))[idx]?
      = some { m with content := m.content ++ [runningBlock tu] } := by
    rw [modifyMessageAt_get_self st.messages idx _ m hm]
    rfl
  have hc1 : contentAt (modifyMessageAt st.messages idx
      (fun m2 => { m2 with content := m2.content
        ++ [ContentBlock.toolUse tu.id tu.name tu.input (some .running) none] })) idx
      = m.content ++ [runningBlock tu] := by
    unfold contentAt
    rw [h1]
    rfl
  unfold stepTool
  cases hex : executeTool tools tu.name tu.input with
  | ok r =>
    dsimp only
    have hres : resolvedBlock tools tu
        = ContentBlock.toolUse tu.id tu.name tu.input (some .complete) (some r) := by
      unfold resolvedBlock
      rw [hex]
    have h2 : (modifyMessageAt (modifyMessageAt st.messages idx
        (fun m2 => { m2 with content := m2.content
          ++ [ContentBlock.toolUse tu.id tu.name tu.input (some .running) none] })) idx
        (fun m2 => { m2 with content :=
          resolveFirstToolUse tu.id .complete (some r) m2.content }))[idx]?
        = some { m with content := m.content ++ [resolvedBlock tools tu] } := by
      rw [modifyMessageAt_get_self _ idx _ _ h1]
      show some ({ m with content := resolveFirstToolUse tu.id .complete (some r) (m.content ++ [runningBlock tu]) } : Message) = _
      rw [resolveFirst_append_not_mem _ _ _ _ _ hfresh,
        resolveFirst_running_ok, hres]
    have hc2 : contentAt (modifyMessageAt (modifyMessageAt st.messages idx
        (fun m2 => { m2 with content := m2.content
          ++ [ContentBlock.toolUse tu.id tu.name tu.input (some .running) none] })) idx
        (fun m2 => { m2 with content :=
          resolveFirstToolUse tu.id .complete (some r) m2.content })) idx
        = m.content ++ [resolvedBlock tools tu] := by
      unfold contentAt
      rw [h2]
      rfl
    refine ⟨h2, ?_⟩
    rw [hc1, hc2, List.append_assoc]
    rfl
  | error e =>
    dsimp only
    have hres : resolvedBlock tools tu
        = ContentBlock.toolUse tu.id tu.name tu.input (some .error) none := by
      unfold resolvedBlock
      rw [hex]
    have h2 : (modifyMessageAt (modifyMessageAt st.messages idx
        (fun m2 => { m2 with content := m2.content
          ++ [ContentBlock.toolUse tu.id tu.name tu.input (some .running) none] })) idx
        (fun m2 => { m2 with content :=
          resolveFirstToolUse tu.id .error none m2.content }))[idx]?
        = some { m with content := m.content ++ [resolvedBlock tools tu] } := by
      rw [modifyMessageAt_get_self _ idx _ _ h1]
      show some ({ m with content := resolveFirstToolUse tu.id .error none (m.content ++ [runningBlock tu]) } : Message) = _
      rw [resolveFirst_append_not_mem _ _ _ _ _ hfresh,
        resolveFirst_running_error, hres]
    have hc2 : contentAt (modifyMessageAt (modifyMessageAt st.messages idx
        (fun m2 => { m2 with content := m2.content
          ++ [ContentBlock.toolUse tu.id tu.name tu.input (some .running) none] })) idx
        (fun m2 => { m2 with content :=
          resolveFirstToolUse tu.id .error none m2.content })) idx
        = m.content ++ [resolvedBlock tools tu] := by
      unfold contentAt
      rw [h2]
      rfl
    refine ⟨h2, ?_⟩
    rw [hc1, hc2, List.append_assoc]
    rfl

theorem foldStep_content (tools : List (String × Tool)) (mid : String)
    (it idx : Nat) :
    ∀ (tus : List ToolUseReq) (st : ExecState) (m : Message),
      st.messages[idx]? = some m →
      (tus.map ToolUseReq.id).Nodup →
      (∀ tu ∈ tus, tu.id ∉ toolBlockIds m.content) →
      ∃ m', (tus.foldl (stepTool tools mid it idx) st).messages[idx]? = some m'
        ∧ m'.content = m.content ++ blocksOf tools tus
        ∧ ∃ t, (tus.foldl (stepTool tools mid it idx) st).outbox = st.outbox ++ t
            ∧ snapshotsOf t = snapshotsList tools m.content tus := by
  intro tus
  induction tus with
  | nil =>
    intro st m hm hnd hfresh
    exact ⟨m, hm, by simp [blocksOf], ⟨[], by simp, rfl⟩⟩
  | cons tu tus ih =>
    intro st m hm hnd hfresh
    obtain ⟨h2, hob⟩ := stepTool_at_idx tools mid it idx st tu m hm
      (hfresh tu (List.mem_cons_self _ _))
    have hnd' : (tus.map ToolUseReq.id).Nodup := by
      rw [List.map_cons] at hnd
      exact hnd.of_cons
    have hfresh' : ∀ tu2 ∈ tus, tu2.id ∉ toolBlockIds
        ({ m with content := m.content ++ [resolvedBlock tools tu] } : Message).content := by
      intro tu2 htu2
      show tu2.id ∉ toolBlockIds (m.content ++ [resolvedBlock tools tu])
      rw [toolBlockIds_append, resolvedBlock_id]
      intro hmem
      rcases List.mem_append.mp hmem with hmm | hmm
      · exact hfresh tu2 (List.mem_cons_of_mem _ htu2) hmm
      · simp only [List.mem_singleton] at hmm
        rw [List.map_cons] at hnd
        exact (List.nodup_cons.mp hnd).1
          (hmm ▸ List.mem_map_of_mem ToolUseReq.id htu2)
    rw [List.foldl_cons]
    obtain ⟨m', hm', hcont, t, hobox, hsnap⟩ :=
      ih (stepTool tools mid it idx st tu)
        { m with content := m.content ++ [resolvedBlock tools tu] } h2 hnd' hfresh'
    refine ⟨m', hm', ?_, ?_⟩
    · rw [hcont]
      show m.content ++ [resolvedBlock tools tu] ++ blocksOf tools tus = _
      rw [List.append_assoc]
      rfl
    · refine ⟨[⟨"update", mid, some (m.content ++ [runningBlock tu]),
          some it, none, none⟩,
        ⟨"update", mid, some (m.content ++ [resolvedBlock tools tu]),
          some it, none, none⟩] ++ t, ?_, ?_⟩
      · rw [hobox, hob, List.append_assoc]
      · show snapshotsOf ([⟨"update", mid, some (m.content ++ [runningBlock tu]), some it, none, none⟩, ⟨"update", mid, some (m.content ++ [resolvedBlock tools tu]), some it, none, none⟩] ++ t) = _
        unfold snapshotsOf
        rw [List.filterMap_append]
        unfold snapshotsOf at hsnap
        rw [hsnap]
        rfl

theorem executeTools_content (tools : List (String × Tool))
    (msgs : List Message) (ob : List Payload) (mid : String) (it : Nat)
    (tus : List ToolUseReq) (idx : Nat) (m : Message)
    (hidx : firstIdxWithId msgs mid = some idx)
    (hm : msgs[idx]? = some m)
    (hnd : (tus.map ToolUseReq.id).Nodup)
    (hfresh : ∀ tu ∈ tus, tu.id ∉ toolBlockIds m.content) :
    ∃ m', (executeTools tools msgs ob mid it tus).messages[idx]? = some m'
      ∧ m'.content = m.content ++ blocksOf tools tus
      ∧ ∃ t, (executeTools tools msgs ob mid it tus).outbox = ob ++ t
          ∧ snapshotsOf t = snapshotsList tools m.content tus := by
  unfold executeTools
  rw [hidx]
  exact foldStep_content tools mid it idx tus ⟨msgs, ob, []⟩ m hm hnd hfresh

theorem statusLE_refl (st : Option Status) : statusLE st st = true := by
  match st with
  | none => rfl
  | some .running => rfl
  | some .complete => rfl
  | some .error => rfl

theorem blockLE_refl (b : ContentBlock) : blockLE b b = true := by
  cases b with
  | text s => simp [blockLE]
  | toolUse id n i st r => simp [blockLE, statusLE_refl]
  | toolResult i c => simp [blockLE]

theorem blockLE_running_resolved (tools : List (String × Tool))
    (tu : ToolUseReq) :
    blockLE (runningBlock tu) (resolvedBlock tools tu) = true := by
  unfold runningBlock resolvedBlock
  cases executeTool tools tu.name tu.input <;> simp [blockLE, statusLE]

theorem zipAll_blockLE_self_append (c t : List ContentBlock) :
    ((c.zip (c ++ t)).all fun p => blockLE p.1 p.2) = true := by
  induction c with
  | nil => rfl
  | cons b c ih => simp [List.zip_cons_cons, blockLE_refl, ih]

theorem contentLE_self_append (c t : List ContentBlock) :
    contentLE c (c ++ t) = true := by
  unfold contentLE
  rw [zipAll_blockLE_self_append]
  simp [List.length_append, Nat.le_add_right]

theorem zipAll_blockLE_snoc (b1 b2 : ContentBlock)
    (h : blockLE b1 b2 = true) (c : List ContentBlock) :
    (((c ++ [b1]).zip (c ++ [b2])).all fun p => blockLE p.1 p.2) = true := by
  induction c with
  | nil => simp [h]
  | cons b c ih => simp [List.zip_cons_cons, blockLE_refl, ih]

theorem contentLE_snoc (c : List ContentBlock) (b1 b2 : ContentBlock)
    (h : blockLE b1 b2 = true) :
    contentLE (c ++ [b1]) (c ++ [b2]) = true := by
  unfold contentLE
  rw [zipAll_blockLE_snoc b1 b2 h c]
  simp

theorem monoTrace_snapshotsList (tools : List (String × Tool)) :
    ∀ (tus : List ToolUseReq) (c0 : List ContentBlock),
      monoTrace (c0 :: snapshotsList tools c0 tus) = true := by
  intro tus
  induction tus with
  | nil => intro c0; rfl
  | cons tu tus ih =>
    intro c0
    show (contentLE c0 (c0 ++ [runningBlock tu])
      && (contentLE (c0 ++ [runningBlock tu]) (c0 ++ [resolvedBlock tools tu])
        && monoTrace ((c0 ++ [resolvedBlock tools tu])
            :: snapshotsList tools (c0 ++ [resolvedBlock tools tu]) tus)))
      = true
    rw [contentLE_self_append,
      contentLE_snoc c0 _ _ (blockLE_running_resolved tools tu),
      ih (c0 ++ [resolvedBlock tools tu])]
    rfl

theorem blockStatus_resolvedBlock (tools : List (String × Tool))
    (tu : ToolUseReq) :
    blockStatus (resolvedBlock tools tu) = some .complete
    ∨ blockStatus (resolvedBlock tools tu) = some .error := by
  unfold resolvedBlock
  cases executeTool tools tu.name tu.input
  · exact Or.inr rfl
  · exact Or.inl rfl

/-- C6 (amended): in a round whose collected tool-call requests carry
pairwise-distinct ids, all fresh for the focused message (as
`crypto.randomUUID` block/call ids give), a call whose execution throws
(ChatRoom.ts 334-343 catching what tools.ts 170-187 raises, including
dispatch to an unregistered name) is caught in isolation: the round
still produces one `ToolResult` per request — the failing one carrying
the non-empty `"Error: " ++ message` text fed to the next round — every
request (the remaining ones included) leaves its resolved block, and the
failing call's own block ends with status `error`. Without the
distinct-id hypothesis the claim is false: see
`c6_duplicate_id_counterexample`. -/
theorem c6_tool_failure_isolated_amended (tools : List (String × Tool))
    (msgs : List Message) (ob : List Payload) (mid : String) (it : Nat)
    (tus : List ToolUseReq) (idx i : Nat) (m : Message) (tu : ToolUseReq)
    (e : String)
    (hidx : firstIdxWithId msgs mid = some idx)
    (hm : msgs[idx]? = some m)
    (hnd : (tus.map ToolUseReq.id).Nodup)
    (hfresh : ∀ tu2 ∈ tus, tu2.id ∉ toolBlockIds m.content)
    (hi : tus[i]? = some tu)
    (hthrow : executeTool tools tu.name tu.input = .error e) :
    (executeTools tools msgs ob mid it tus).results.length = tus.length
    ∧ (executeTools tools msgs ob mid it tus).results[i]?
        = some ⟨tu.id, "Error: " ++ e⟩
    ∧ ∃ m', (executeTools tools msgs ob mid it tus).messages[idx]? = some m'
        ∧ m'.content = m.content ++ blocksOf tools tus
        ∧ m'.content[m.content.length + i]?
            = some (.toolUse tu.id tu.name tu.input (some .error) none) := by
  have hres := executeTools_results tools msgs ob mid it tus idx hidx
  obtain ⟨m', hm', hcont, -⟩ :=
    executeTools_content tools msgs ob mid it tus idx m hidx hm hnd hfresh
  refine ⟨?_, ?_, m', hm', hcont, ?_⟩
  · rw [hres]
    exact List.length_map _ _
  · rw [hres]
    unfold toolResultsOf
    rw [List.getElem?_map, hi]
    simp only [Option.map_some']
    rw [hthrow]
  · rw [hcont, List.getElem?_append_right (Nat.le_add_right _ _),
      Nat.add_sub_cancel_left]
    unfold blocksOf
    rw [List.getElem?_map, hi]
    simp only [Option.map_some']
    unfold resolvedBlock
    rw [hthrow]

theorem c6_tool_failure_isolated_amended_witness :
    executeTool createToolRegistry reqBadY.name reqBadY.input
        = .error "Unknown tool: no_such_tool"
    ∧ ([reqCalcAdd75, reqBadY].map ToolUseReq.id).Nodup
    ∧ ((executeTools createToolRegistry [msgA] [] "m1" 0
          [reqCalcAdd75, reqBadY]).results.length
        = [reqCalcAdd75, reqBadY].length
      ∧ (executeTools createToolRegistry [msgA] [] "m1" 0
          [reqCalcAdd75, reqBadY]).results[1]?
          = some ⟨reqBadY.id, "Error: " ++ "Unknown tool: no_such_tool"⟩
      ∧ ∃ m', (executeTools createToolRegistry [msgA] [] "m1" 0
            [reqCalcAdd75, reqBadY]).messages[0]? = some m'
          ∧ m'.content = msgA.content
              ++ blocksOf createToolRegistry [reqCalcAdd75, reqBadY]
          ∧ m'.content[msgA.content.length + 1]?
              = some (.toolUse reqBadY.id reqBadY.name reqBadY.input
                  (some .error) none)) :=
  ⟨rfl, by decide,
   c6_tool_failure_isolated_amended createToolRegistry [msgA] [] "m1" 0
     [reqCalcAdd75, reqBadY] 0 1 msgA reqBadY "Unknown tool: no_such_tool"
     rfl rfl (by decide) (by decide) rfl rfl⟩

/-- C6 counterexample (duplicate ids, as the code would accept them):
with the two requests sharing id `"X"`, the first failing and the second
succeeding, the failing dispatch throws yet the final message holds NO
block with status `error` — resolving the second call rewrote the FIRST
block with that id (ChatRoom.ts 313 `findIndex`), flipping the failed
block to `complete` and leaving the second stuck `running` — so the
claim as stated (the corresponding block's status becomes `error`) needs
the distinct-id amendment. -/
theorem c6_duplicate_id_counterexample :
    executeTool createToolRegistry reqBadX.name reqBadX.input
        = .error "Unknown tool: no_such_tool"
    ∧ (executeTools createToolRegistry [msgA] [] "m1" 0
          [reqBadX, reqOkX]).results
        = [⟨"X", "Error: Unknown tool: no_such_tool"⟩,
           ⟨"X", "The result of 1 add 2 is 3"⟩]
    ∧ (contentAt (executeTools createToolRegistry [msgA] [] "m1" 0
          [reqBadX, reqOkX]).messages 0).map blockStatus
        = [some .complete, some .running] :=
  ⟨rfl, by decide, by decide⟩

/-- C9 (amended): over a round of tool executions whose requests carry
pairwise-distinct ids, all fresh for the focused message, every tool_use
block is appended with status `running` (each `running` snapshot is in
the broadcast trace) and transitions exactly once, to `complete` on
success or `error` on a throw, and the whole broadcast snapshot trace is
monotone (`contentLE` pairwise: blocks only appended, statuses only move
`running → complete/error`, results only attached). Without the
distinct-id hypothesis monotonicity fails: see
`c9_duplicate_id_counterexample`. -/
theorem c9_status_monotonic_amended (tools : List (String × Tool))
    (msgs : List Message) (ob : List Payload) (mid : String) (it : Nat)
    (tus : List ToolUseReq) (idx : Nat) (m : Message)
    (hidx : firstIdxWithId msgs mid = some idx)
    (hm : msgs[idx]? = some m)
    (hnd : (tus.map ToolUseReq.id).Nodup)
    (hfresh : ∀ tu2 ∈ tus, tu2.id ∉ toolBlockIds m.content) :
    ∃ m' t,
      (executeTools tools msgs ob mid it tus).messages[idx]? = some m'
      ∧ m'.content = m.content ++ blocksOf tools tus
      ∧ (executeTools tools msgs ob mid it tus).outbox = ob ++ t
      ∧ snapshotsOf t = snapshotsList tools m.content tus
      ∧ monoTrace (m.content :: snapshotsOf t) = true
      ∧ ∀ i tu, tus[i]? = some tu →
          m'.content[m.content.length + i]? = some (resolvedBlock tools tu)
          ∧ (blockStatus (resolvedBlock tools tu) = some .complete
             ∨ blockStatus (resolvedBlock tools tu) = some .error) := by
  obtain ⟨m', hm', hcont, t, hob, hsnap⟩ :=
    executeTools_content tools msgs ob mid it tus idx m hidx hm hnd hfresh
  refine ⟨m', t, hm', hcont, hob, hsnap, ?_, ?_⟩
  · rw [hsnap]
    exact monoTrace_snapshotsList tools tus m.content
  · intro i tu hi
    refine ⟨?_, blockStatus_resolvedBlock tools tu⟩
    rw [hcont, List.getElem?_append_right (Nat.le_add_right _ _),
      Nat.add_sub_cancel_left]
    unfold blocksOf
    rw [List.getElem?_map, hi]
    rfl

theorem c9_status_monotonic_amended_witness :
    ([reqOkX, reqBadY].map ToolUseReq.id).Nodup
    ∧ ∃ m' t,
      (executeTools createToolRegistry [msgA] [] "m1" 0
          [reqOkX, reqBadY]).messages[0]? = some m'
      ∧ m'.content = msgA.content
          ++ blocksOf createToolRegistry [reqOkX, reqBadY]
      ∧ (executeTools createToolRegistry [msgA] [] "m1" 0
          [reqOkX, reqBadY]).outbox = [] ++ t
      ∧ snapshotsOf t
          = snapshotsList createToolRegistry msgA.content [reqOkX, reqBadY]
      ∧ monoTrace (msgA.content :: snapshotsOf t) = true
      ∧ ∀ i tu, [reqOkX, reqBadY][i]? = some tu →
          m'.content[msgA.content.length + i]?
            = some (resolvedBlock createToolRegistry tu)
          ∧ (blockStatus (resolvedBlock createToolRegistry tu)
              = some .complete
             ∨ blockStatus (resolvedBlock createToolRegistry tu)
              = some .error) :=
  ⟨by decide,
   c9_status_monotonic_amended createToolRegistry [msgA] [] "m1" 0
     [reqOkX, reqBadY] 0 msgA rfl rfl (by decide) (by decide)⟩

/-- C9 counterexample (duplicate ids): with requests `[reqOkY, reqBadY]`
sharing id `"Y"`, resolving the second (throwing) call rewrites the
FIRST block with that id (ChatRoom.ts 313 `findIndex`), so the block
already `complete` flips to `error` across consecutive broadcast
snapshots and the second block never leaves `running`: the status-trace
is `[[running], [complete], [complete, running], [error, running]]` and
the snapshot trace is not monotone — a `ToolUse` status does move back
from `complete`, so monotonicity needs the distinct-id amendment. -/
theorem c9_duplicate_id_counterexample :
    (snapshotsOf (executeTools createToolRegistry [msgA] [] "m1" 0
          [reqOkY, reqBadY]).outbox).map (fun c => c.map blockStatus)
      = [[some .running], [some .complete],
         [some .complete, some .running], [some .error, some .running]]
    ∧ monoTrace (msgA.content
        :: snapshotsOf (executeTools createToolRegistry [msgA] [] "m1" 0
          [reqOkY, reqBadY]).outbox) = false :=
  ⟨by decide, by decide⟩
